import Mathlib

/-!
Shallow embedding of the Xtra-Cars multiplayer server (server.py): the room
registry, the race state machine, telemetry validation and the periodic
cleanup task, together with theorems checking specification claims C1 to C10.

Modelling conventions:
* Python dicts (insertion ordered) are association lists; aset updates an
  existing key in place and appends a new key at the end, aerase deletes the
  entry, amodify rewrites the value at a key; these match dict assignment,
  del and in-place field updates.
* Wall clock readings (time.time()) are exact rationals passed to each
  handler as an explicit now argument.
* uuid generated room ids are explicit inputs of the operations that draw
  them: the random generator is external to the program, so a generated id
  is a nondeterministic input of the embedding.
* Socket emissions become a returned event list; an awaited sleep splits a
  handler into its synchronous prefix and explicit continuation steps that
  re-read the then-current state.
* A Python KeyError aborts a handler and the state mutated before the raise
  persists; every spot where the source can raise is modelled by returning
  the partial state, with a note next to the definition.
-/

namespace XtraCars

abbrev Sid := String
abbrev RoomId := String

/-- Association list lookup, first matching key wins (dict access). -/
def alookup {α β : Type} [DecidableEq α] : List (α × β) → α → Option β
  | [], _ => none
  | (k, v) :: t, k' => if k = k' then some v else alookup t k'

/-- Dict assignment: replace the value at an existing key in place, else
append the new binding at the end (Python dicts keep insertion order). -/
def aset {α β : Type} [DecidableEq α] : List (α × β) → α → β → List (α × β)
  | [], k, v => [(k, v)]
  | (k0, v0) :: t, k, v =>
      if k0 = k then (k, v) :: t else (k0, v0) :: aset t k v

/-- Dict deletion: remove the first binding of the key. -/
def aerase {α β : Type} [DecidableEq α] : List (α × β) → α → List (α × β)
  | [], _ => []
  | (k0, v0) :: t, k => if k0 = k then t else (k0, v0) :: aerase t k

/-- Rewrite the value stored at a key, keeping position; no-op when the key
is absent (used only where the source guarantees presence). -/
def amodify {α β : Type} [DecidableEq α] (f : β → β) :
    List (α × β) → α → List (α × β)
  | [], _ => []
  | (k0, v0) :: t, k =>
      if k0 = k then (k0, f v0) :: t else (k0, v0) :: amodify f t k

/-- Key membership test (Python in). -/
def amem {α β : Type} [DecidableEq α] (l : List (α × β)) (k : α) : Bool :=
  (alookup l k).isSome

/-- First key of the dict (next(iter(d))). -/
def headKey {α β : Type} : List (α × β) → Option α
  | [] => none
  | (k, _) :: _ => some k

section AssocLemmas

variable {α β : Type} [DecidableEq α]

theorem mem_aset : ∀ {l : List (α × β)} {k : α} {v : β} {q : α × β},
    q ∈ aset l k v → q = (k, v) ∨ q ∈ l := by
  intro l
  induction l with
  | nil =>
    intro k v q h
    simp [aset] at h
    exact Or.inl h
  | cons hd t ih =>
    intro k v q h
    obtain ⟨k0, v0⟩ := hd
    by_cases hk : k0 = k
    · rw [show aset ((k0, v0) :: t) k v = (k, v) :: t by simp [aset, hk],
        List.mem_cons] at h
      rcases h with h | h
      · exact Or.inl h
      · exact Or.inr (List.mem_cons_of_mem _ h)
    · rw [show aset ((k0, v0) :: t) k v = (k0, v0) :: aset t k v by
        simp [aset, hk], List.mem_cons] at h
      rcases h with h | h
      · exact Or.inr (by simp [h])
      · rcases ih h with h' | h'
        · exact Or.inl h'
        · exact Or.inr (List.mem_cons_of_mem _ h')

theorem mem_aerase : ∀ {l : List (α × β)} {k : α} {q : α × β},
    q ∈ aerase l k → q ∈ l := by
  intro l
  induction l with
  | nil =>
    intro k q h
    simp [aerase] at h
  | cons hd t ih =>
    intro k q h
    obtain ⟨k0, v0⟩ := hd
    by_cases hk : k0 = k
    · rw [show aerase ((k0, v0) :: t) k = t by simp [aerase, hk]] at h
      exact List.mem_cons_of_mem _ h
    · rw [show aerase ((k0, v0) :: t) k = (k0, v0) :: aerase t k by
        simp [aerase, hk], List.mem_cons] at h
      rcases h with h | h
      · simp [h]
      · exact List.mem_cons_of_mem _ (ih h)

theorem mem_amodify : ∀ {l : List (α × β)} {k : α} {f : β → β} {q : α × β},
    q ∈ amodify f l k → q ∈ l ∨ ∃ v, (k, v) ∈ l ∧ q = (k, f v) := by
  intro l
  induction l with
  | nil =>
    intro k f q h
    simp [amodify] at h
  | cons hd t ih =>
    intro k f q h
    obtain ⟨k0, v0⟩ := hd
    by_cases hk : k0 = k
    · rw [show amodify f ((k0, v0) :: t) k = (k0, f v0) :: t by
        simp [amodify, hk], List.mem_cons] at h
      rcases h with h | h
      · subst hk
        exact Or.inr ⟨v0, by simp, h⟩
      · exact Or.inl (List.mem_cons_of_mem _ h)
    · rw [show amodify f ((k0, v0) :: t) k = (k0, v0) :: amodify f t k by
        simp [amodify, hk], List.mem_cons] at h
      rcases h with h | h
      · exact Or.inl (by simp [h])
      · rcases ih h with h' | ⟨v, hv, hq⟩
        · exact Or.inl (List.mem_cons_of_mem _ h')
        · exact Or.inr ⟨v, List.mem_cons_of_mem _ hv, hq⟩

theorem length_aset_le (l : List (α × β)) (k : α) (v : β) :
    (aset l k v).length ≤ l.length + 1 := by
  induction l with
  | nil => simp [aset]
  | cons hd t ih =>
    rcases hd with ⟨k0, v0⟩
    by_cases hk : k0 = k
    · simp [aset, hk]
    · simp only [aset, if_neg hk, List.length_cons]
      omega

theorem length_aerase_le (l : List (α × β)) (k : α) :
    (aerase l k).length ≤ l.length := by
  induction l with
  | nil => simp [aerase]
  | cons hd t ih =>
    rcases hd with ⟨k0, v0⟩
    by_cases hk : k0 = k
    · simp [aerase, hk]
    · simp only [aerase, if_neg hk, List.length_cons]
      omega

theorem length_amodify (f : β → β) (l : List (α × β)) (k : α) :
    (amodify f l k).length = l.length := by
  induction l with
  | nil => simp [amodify]
  | cons hd t ih =>
    rcases hd with ⟨k0, v0⟩
    by_cases hk : k0 = k
    · simp [amodify, hk]
    · simp [amodify, if_neg hk, ih]

theorem alookup_mem : ∀ {l : List (α × β)} {k : α} {v : β},
    alookup l k = some v → (k, v) ∈ l := by
  intro l
  induction l with
  | nil =>
    intro k v h
    simp [alookup] at h
  | cons hd t ih =>
    intro k v h
    obtain ⟨k0, v0⟩ := hd
    by_cases hk : k0 = k
    · rw [show alookup ((k0, v0) :: t) k = some v0 by simp [alookup, hk]] at h
      subst hk
      obtain rfl : v0 = v := by injection h
      simp
    · rw [show alookup ((k0, v0) :: t) k = alookup t k by
        simp [alookup, hk]] at h
      exact List.mem_cons_of_mem _ (ih h)

end AssocLemmas

/-- Car selection payload: the dict stored by select_car and join_race. -/
structure CarData where
  cname : String
  cindex : Int
deriving DecidableEq, Repr

/-- Client supplied numeric field: a number, or any non numeric value
(isinstance check fails). -/
inductive Val where
  | num (q : ℚ)
  | other
deriving DecidableEq, Repr

/-- Room status strings used by the server. -/
inductive Status where
  | waiting
  | racing
deriving DecidableEq, Repr

/-- One entry of rooms[room_id]["players"]: the per-room player dict. Keys
the source adds only later (car_name, finished, finish_time, last_position,
last_update_time, disconnected, disconnect_time) are Options or default to
false; a deleted key becomes none respectively false. -/
structure Member where
  name : String
  car_data : Option CarData := none
  car_name : Option String := none
  car_selected : Bool := false
  is_host : Bool := false
  ready : Bool := false
  race_ready : Bool := false
  finished : Bool := false
  finish_time : Option ℚ := none
  last_position : Option ℚ := none
  last_update_time : Option ℚ := none
  disconnected : Bool := false
  disconnect_time : Option ℚ := none
deriving DecidableEq, Repr

/-- One entry of a room disconnected_players archive. -/
structure DiscEntry where
  dsid : Sid
  ddata : Member
  disconnect_time : ℚ
  timeout : ℚ
deriving DecidableEq, Repr

/-- One entry of the global rooms dict. -/
structure Room where
  rname : String
  host_sid : Option Sid
  players : List (Sid × Member)
  status : Status
  created_at : ℚ
  map : String
  last_activity : Option ℚ := none
  race_start_time : Option ℚ := none
  disconnected_players : List (String × DiscEntry) := []
deriving DecidableEq, Repr

/-- One entry of the global players dict. -/
structure PInfo where
  pname : String
  room_id : Option RoomId
deriving DecidableEq, Repr

/-- The whole mutable server state: the two global dicts. -/
structure ServerState where
  rooms : List (RoomId × Room)
  players : List (Sid × PInfo)
deriving DecidableEq, Repr

/-- The state at process start: both dicts empty. -/
def initState : ServerState := ⟨[], []⟩

/-- Outbound socket emissions; the first argument is always the target
connection (the to= of sio.emit). Payloads carry the fields the claims
inspect. -/
inductive Ev where
  | error (dst : Sid) (msg : String)
  | roomJoined (dst : Sid) (rid : RoomId)
  | playerJoined (dst : Sid) (joiner : Sid)
  | playerLeft (dst : Sid) (pid : Sid)
  | playerDisconnected (dst : Sid) (pid : Sid) (pname : String)
  | hostTransferred (dst : Sid)
  | carSelected (dst : Sid) (pid : Sid) (cname : String)
  | readyChanged (dst : Sid) (pid : Sid) (rdy : Bool)
  | chatMsg (dst : Sid) (sender msg : String)
  | raceStarting (dst : Sid) (starter : Sid)
  | raceCountdown (dst : Sid) (duration : ℚ)
  | raceStart (dst : Sid) (starter : Sid)
  | playerUpdateEv (dst : Sid) (pid : Sid) (position speed : ℚ)
  | playerFinished (dst : Sid) (pid : Sid) (ftime : ℚ)
  | raceResults (dst : Sid) (results : List (String × ℚ))
  | raceJoined (dst : Sid) (rid : RoomId)
deriving DecidableEq, Repr

/-- Target connection of an emission. -/
def Ev.dst : Ev → Sid
  | .error d _ => d
  | .roomJoined d _ => d
  | .playerJoined d _ => d
  | .playerLeft d _ => d
  | .playerDisconnected d _ _ => d
  | .hostTransferred d => d
  | .carSelected d _ _ => d
  | .readyChanged d _ _ => d
  | .chatMsg d _ _ => d
  | .raceStarting d _ => d
  | .raceCountdown d _ => d
  | .raceStart d _ => d
  | .playerUpdateEv d _ _ _ => d
  | .playerFinished d _ _ => d
  | .raceResults d _ => d
  | .raceJoined d _ => d

/-- Python max(lo, min(hi, x)). -/
def clampQ (lo hi x : ℚ) : ℚ := max lo (min hi x)

/-- isinstance(x, (int, float)) coercion used by the telemetry handlers:
a non numeric value becomes the given default. -/
def coerceNum (dflt : ℚ) (v : Val) : ℚ :=
  match v with
  | .num q => q
  | .other => dflt

/-- Handler connect (server.py lines 34 to 43): register the participant
with no room; the display name comes from auth or defaults to a prefix of
the connection id. -/
def hConnect (st : ServerState) (sid : Sid) (authName : Option String) :
    ServerState × List Ev :=
  let pn := authName.getD ("Player_" ++ sid.take 4)
  ({ st with players := aset st.players sid ⟨pn, none⟩ }, [])

/-- Host transfer step shared by leave_room and disconnect (lines 103 to
111 and 260 to 268): promote the first entry of the given players dict to
host and notify it. Returns the new host, the updated players and the
emission. The caller only invokes it on a nonempty dict. -/
def promoteHead (pl : List (Sid × Member)) :
    Option Sid × List (Sid × Member) × List Ev :=
  match headKey pl with
  | none => (none, pl, [])
  | some k =>
      (some k, amodify (fun m => { m with is_host := true }) pl k,
       [Ev.hostTransferred k])

/-- Handler disconnect (lines 45 to 118). During a race the member is kept,
flagged disconnected and archived; otherwise it is removed and the rest are
notified. In both cases, when the leaver was host, the first entry of the
resulting players dict is promoted. The participant record is always
deleted at the end. -/
def hDisconnect (st : ServerState) (sid : Sid) (now : ℚ) :
    ServerState × List Ev :=
  let stFin : ServerState → ServerState :=
    fun s => { s with players := aerase s.players sid }
  match alookup st.players sid with
  | none => (st, [])
  | some p =>
    match p.room_id with
    | none => (stFin st, [])
    | some rid =>
      match alookup st.rooms rid with
      | none => (stFin st, [])
      | some room =>
        match alookup room.players sid with
        | none => (stFin st, [])
        | some m =>
          if room.status = Status.racing then
            let m' := { m with disconnected := true, disconnect_time := some now }
            let room1 := { room with
              players := aset room.players sid m',
              disconnected_players :=
                aset room.disconnected_players m.name ⟨sid, m', now, 60⟩ }
            let evs1 := (room1.players.filter (fun q => q.1 ≠ sid)).map
              (fun q => Ev.playerDisconnected q.1 sid m.name)
            if room1.host_sid = some sid then
              match room1.players with
              | [] =>
                  (stFin { st with rooms := aerase st.rooms rid }, evs1)
              | _ :: _ =>
                  let ph := promoteHead room1.players
                  let room2 := { room1 with host_sid := ph.1, players := ph.2.1 }
                  (stFin { st with rooms := aset st.rooms rid room2 },
                   evs1 ++ ph.2.2)
            else
              (stFin { st with rooms := aset st.rooms rid room1 }, evs1)
          else
            let pl1 := aerase room.players sid
            let evs1 := pl1.map (fun q => Ev.playerLeft q.1 sid)
            if room.host_sid = some sid then
              match pl1 with
              | [] =>
                  (stFin { st with rooms := aerase st.rooms rid }, evs1)
              | _ :: _ =>
                  let ph := promoteHead pl1
                  let room2 := { room with host_sid := ph.1, players := ph.2.1 }
                  (stFin { st with rooms := aset st.rooms rid room2 },
                   evs1 ++ ph.2.2)
            else
              let room2 := { room with players := pl1 }
              (stFin { st with rooms := aset st.rooms rid room2 }, evs1)

/-- Handler create_room (lines 137 to 178). The room is inserted before the
creator name lookup; a missing participant record would raise KeyError at
line 154, leaving the empty room behind, which the abort branch mirrors. -/
def hCreateRoom (st : ServerState) (sid : Sid) (rid : RoomId)
    (roomName : Option String) (now : ℚ) : ServerState × List Ev :=
  let rn := roomName.getD ("Room " ++ toString (st.rooms.length + 1))
  let newRoom : Room :=
    { rname := rn, host_sid := some sid, players := [],
      status := Status.waiting, created_at := now, map := "map1" }
  let st1 := { st with rooms := aset st.rooms rid newRoom }
  match alookup st.players sid with
  | none => (st1, [])
  | some p =>
    let mem : Member := { name := p.pname, is_host := true }
    let st2 := { st1 with
      rooms := amodify (fun r => { r with players := aset r.players sid mem })
        st1.rooms rid,
      players := aset st.players sid { p with room_id := some rid } }
    (st2, [Ev.roomJoined sid rid])

/-- Handler join_room (lines 180 to 240): room existence, capacity and
status checks in source order, then the member is added non host and the
others are notified. A missing participant record would raise KeyError at
line 202 before any mutation. -/
def hJoinRoom (st : ServerState) (sid : Sid) (rid : RoomId) :
    ServerState × List Ev :=
  match alookup st.rooms rid with
  | none => (st, [Ev.error sid "Room not found"])
  | some room =>
    if room.players.length ≥ 2 then
      (st, [Ev.error sid "Room is full"])
    else if room.status = Status.racing then
      (st, [Ev.error sid "Race already in progress"])
    else
      match alookup st.players sid with
      | none => (st, [])
      | some p =>
        let mem : Member := { name := p.pname }
        let pl1 := aset room.players sid mem
        let st1 := { st with
          rooms := aset st.rooms rid { room with players := pl1 },
          players := aset st.players sid { p with room_id := some rid } }
        (st1, Ev.roomJoined sid rid ::
          (pl1.filter (fun q => q.1 ≠ sid)).map
            (fun q => Ev.playerJoined q.1 sid))

/-- Handler leave_room (lines 242 to 274): remove the member, notify the
rest, and transfer host or delete the now empty room when the leaver was
host. -/
def hLeaveRoom (st : ServerState) (sid : Sid) : ServerState × List Ev :=
  match alookup st.players sid with
  | none => (st, [])
  | some p =>
    match p.room_id with
    | none => (st, [])
    | some rid =>
      match alookup st.rooms rid with
      | none => (st, [])
      | some room =>
        let clearP : ServerState → ServerState := fun s =>
          { s with players := aset s.players sid { p with room_id := none } }
        match alookup room.players sid with
        | none => (clearP st, [])
        | some _ =>
          let pl1 := aerase room.players sid
          let evs1 := pl1.map (fun q => Ev.playerLeft q.1 sid)
          if room.host_sid = some sid then
            match pl1 with
            | [] => (clearP { st with rooms := aerase st.rooms rid }, evs1)
            | _ :: _ =>
                let ph := promoteHead pl1
                let room2 := { room with host_sid := ph.1, players := ph.2.1 }
                (clearP { st with rooms := aset st.rooms rid room2 },
                 evs1 ++ ph.2.2)
          else
            let room2 := { room with players := pl1 }
            (clearP { st with rooms := aset st.rooms rid room2 }, evs1)

/-- Handler select_car (lines 276 to 310): record the car on the member,
refresh last activity and notify the other members. -/
def hSelectCar (st : ServerState) (sid : Sid) (carName : String)
    (carIndex : Int) (now : ℚ) : ServerState × List Ev :=
  match alookup st.players sid with
  | none => (st, [])
  | some p =>
    match p.room_id with
    | none => (st, [])
    | some rid =>
      match alookup st.rooms rid with
      | none => (st, [])
      | some room =>
        match alookup room.players sid with
        | none => (st, [])
        | some m =>
          let m' := { m with
            car_data := some ⟨carName, carIndex⟩,
            car_name := some carName,
            car_selected := true }
          let room' := { room with
            players := aset room.players sid m',
            last_activity := some now }
          ({ st with rooms := aset st.rooms rid room' },
           (room'.players.filter (fun q => q.1 ≠ sid)).map
             (fun q => Ev.carSelected q.1 sid carName))

/-- Handler player_ready (lines 312 to 333). -/
def hPlayerReady (st : ServerState) (sid : Sid) (rdy : Bool) (now : ℚ) :
    ServerState × List Ev :=
  match alookup st.players sid with
  | none => (st, [])
  | some p =>
    match p.room_id with
    | none => (st, [])
    | some rid =>
      match alookup st.rooms rid with
      | none => (st, [])
      | some room =>
        match alookup room.players sid with
        | none => (st, [])
        | some m =>
          let room' := { room with
            players := aset room.players sid { m with ready := rdy },
            last_activity := some now }
          ({ st with rooms := aset st.rooms rid room' },
           (room'.players.filter (fun q => q.1 ≠ sid)).map
             (fun q => Ev.readyChanged q.1 sid rdy))

/-- Handler chat_message (lines 335 to 353): the sender name lookup at line
343 raises KeyError when the sender is not a member, before any mutation. -/
def hChat (st : ServerState) (sid : Sid) (msg : String) (now : ℚ) :
    ServerState × List Ev :=
  match alookup st.players sid with
  | none => (st, [])
  | some p =>
    match p.room_id with
    | none => (st, [])
    | some rid =>
      match alookup st.rooms rid with
      | none => (st, [])
      | some room =>
        match alookup room.players sid with
        | none => (st, [])
        | some m =>
          let room' := { room with last_activity := some now }
          ({ st with rooms := aset st.rooms rid room' },
           room'.players.map (fun q => Ev.chatMsg q.1 m.name msg))

/-- The loop of lines 375 to 379: every member other than the requester has
ready set. -/
def allOthersReady (pl : List (Sid × Member)) (sid : Sid) : Bool :=
  pl.all (fun q => q.1 = sid || q.2.ready)

/-- Handler start_race, synchronous prefix up to the first await (lines 355
to 424): the player count, requester readiness and all ready checks in
source order, then status is set to racing and race_starting is broadcast.
Car selection is only inspected for a log line and never gates the
transition. When the requester is not host and not a member, line 370 would
raise KeyError before any mutation. The tail after the per-requester ready
gate (lines 374 to 424) is split into hStartRaceProceed. -/
def hStartRaceProceed (st : ServerState) (sid : Sid) (rid : RoomId)
    (room : Room) : ServerState × List Ev :=
  if allOthersReady room.players sid then
    let room1 := { room with status := Status.racing }
    ({ st with rooms := aset st.rooms rid room1 },
     room1.players.map (fun q => Ev.raceStarting q.1 sid))
  else
    (st, [Ev.error sid "All players must be ready to start the race"])

def hStartRace (st : ServerState) (sid : Sid) : ServerState × List Ev :=
  match alookup st.players sid with
  | none => (st, [])
  | some p =>
    match p.room_id with
    | none => (st, [])
    | some rid =>
      match alookup st.rooms rid with
      | none => (st, [])
      | some room =>
        if room.players.length ≠ 2 then
          (st, [Ev.error sid "Need exactly 2 players for a 1v1 race"])
        else if room.host_sid = some sid then
          hStartRaceProceed st sid rid room
        else
          match alookup room.players sid with
          | none => (st, [])
          | some m =>
            if m.ready then hStartRaceProceed st sid rid room
            else (st, [Ev.error sid "You must be ready to start the race"])

/-- Continuation of start_race after asyncio.sleep(1) (lines 430 to 433):
broadcast the countdown to the then-current members. The source iterates
the captured room dict; when the room is still registered that dict is the
registered one, and a deleted room is modelled as having no targets, which
differs from the alias only in emissions to members of an unregistered
room. -/
def hStartRaceCountdown (st : ServerState) (rid : RoomId) :
    ServerState × List Ev :=
  match alookup st.rooms rid with
  | none => (st, [])
  | some room =>
      (st, room.players.map (fun q => Ev.raceCountdown q.1 3))

/-- Continuation of start_race after asyncio.sleep(3) (lines 438 to 463):
record race_start_time, then broadcast race_start; the payload at line 458
reads the requester record in the global players dict, so a requester that
disconnected during the waits raises KeyError on the first loop iteration;
the returned flag records that crash (race_start_time is already set, no
race_start is emitted). -/
def hStartRaceGo (st : ServerState) (rid : RoomId) (starter : Sid)
    (now : ℚ) : (ServerState × List Ev) × Bool :=
  match alookup st.rooms rid with
  | none => ((st, []), false)
  | some room =>
    let room1 := { room with race_start_time := some now }
    let st1 := { st with rooms := aset st.rooms rid room1 }
    match room1.players with
    | [] => ((st1, []), false)
    | _ :: _ =>
      match alookup st1.players starter with
      | none => ((st1, []), true)
      | some _ =>
          ((st1, room1.players.map (fun q => Ev.raceStart q.1 starter)), false)

/-- Anti cheat position pipeline of player_update (lines 479 to 510): the
range clamp, then the movement clamp against the stored baseline. Returns
none when last_position exists without last_update_time, where line 497
would raise KeyError (the two are only ever written together). -/
def validatePosition (m : Member) (now : ℚ) (pos : Val) : Option ℚ :=
  let p0 := clampQ (-1000) 10000 (coerceNum 0 pos)
  match m.last_position with
  | none => some p0
  | some lastPos =>
    match m.last_update_time with
    | none => none
    | some lastT =>
      let timeDiff := now - lastT
      let maxMove := 300 * timeDiff
      if |p0 - lastPos| > maxMove ∧ timeDiff > 1 / 10 then
        some (if p0 > lastPos then lastPos + maxMove else lastPos - maxMove)
      else some p0

/-- Handler player_update (lines 465 to 531): only in a racing room;
coerce and clamp position and speed, apply the movement clamp, store the
new baseline, refresh last activity and relay to every other member. The
whole body sits in a try block, so any raise drops the update with no
mutation. -/
def hPlayerUpdate (st : ServerState) (sid : Sid) (pos spd : Val)
    (now : ℚ) : ServerState × List Ev :=
  match alookup st.players sid with
  | none => (st, [])
  | some p =>
    match p.room_id with
    | none => (st, [])
    | some rid =>
      match alookup st.rooms rid with
      | none => (st, [])
      | some room =>
        if room.status = Status.racing then
          match alookup room.players sid with
          | none => (st, [])
          | some m =>
            match validatePosition m now pos with
            | none => (st, [])
            | some position =>
              let speed := clampQ 0 500 (coerceNum 0 spd)
              let m' := { m with
                last_position := some position,
                last_update_time := some now }
              let room' := { room with
                players := aset room.players sid m',
                last_activity := some now }
              ({ st with rooms := aset st.rooms rid room' },
               (room'.players.filter (fun q => q.1 ≠ sid)).map
                 (fun q => Ev.playerUpdateEv q.1 sid position speed))
        else (st, [])

/-- Handler join_race, synchronous prefix up to the first await (lines 533
to 582): the generated id race_ plus eight uuid hex characters is the rid
input; when that id is not yet registered a fresh room is created (host_sid
is the caller only when is_host), then the caller is added auto ready, the
participant record is created or repointed, race_joined is acknowledged,
and for is_host the status is set racing before the first sleep. -/
def joinRaceName (st : ServerState) (sid : Sid)
    (pname : Option String) : String :=
  pname.getD
    (match alookup st.players sid with
     | some p => p.pname
     | none => "Player_" ++ sid.take 4)

def joinRaceMember (st : ServerState) (sid : Sid) (pname : Option String)
    (car : Option CarData) (carName : Option String) (isHost : Bool) :
    Member :=
  { name := joinRaceName st sid pname, car_data := car,
    car_name := some (carName.getD "Default"),
    is_host := isHost, ready := true }

def hJoinRace (st : ServerState) (sid : Sid) (rid : RoomId)
    (pname : Option String) (car : Option CarData) (carName : Option String)
    (isHost : Bool) (now : ℚ) : ServerState × List Ev :=
  let pn := joinRaceName st sid pname
  let rooms1 :=
    if amem st.rooms rid then st.rooms
    else
      aset st.rooms rid
        { rname := "Race " ++ toString (st.rooms.length + 1),
          host_sid := if isHost then some sid else none,
          players := [], status := Status.waiting,
          created_at := now, map := "map1" }
  let mem := joinRaceMember st sid pname car carName isHost
  let rooms2 :=
    amodify (fun r => { r with players := aset r.players sid mem }) rooms1 rid
  let players' :=
    match alookup st.players sid with
    | some p => aset st.players sid { p with room_id := some rid }
    | none => aset st.players sid ⟨pn, some rid⟩
  let st1 : ServerState := ⟨rooms2, players'⟩
  let evs := [Ev.raceJoined sid rid]
  if isHost then
    let rooms3 :=
      amodify (fun r => { r with status := Status.racing }) st1.rooms rid
    ({ st1 with rooms := rooms3 }, evs)
  else (st1, evs)

/-- Continuation of join_race after asyncio.sleep(1) (lines 588 to 590):
the countdown goes to the caller only and reads no shared state. -/
def hJoinRaceCountdown (st : ServerState) (sid : Sid) :
    ServerState × List Ev :=
  (st, [Ev.raceCountdown sid 3])

/-- Continuation of join_race after asyncio.sleep(3) (lines 595 to 608):
line 597 reads the room from the registry again, so a room deleted during
the waits raises KeyError (flag true); otherwise race_start goes to the
caller only. No state is mutated either way. -/
def hJoinRaceGo (st : ServerState) (sid : Sid) (rid : RoomId) :
    (ServerState × List Ev) × Bool :=
  match alookup st.rooms rid with
  | none => ((st, []), true)
  | some _ => ((st, [Ev.raceStart sid sid]), false)

/-- Handler player_ready_to_race (lines 610 to 624): record the flag; the
all ready case only logs. -/
def hPlayerReadyToRace (st : ServerState) (sid : Sid) :
    ServerState × List Ev :=
  match alookup st.players sid with
  | none => (st, [])
  | some p =>
    match p.room_id with
    | none => (st, [])
    | some rid =>
      match alookup st.rooms rid with
      | none => (st, [])
      | some room =>
        match alookup room.players sid with
        | none => (st, [])
        | some m =>
          let room' := { room with
            players := aset room.players sid { m with race_ready := true } }
          ({ st with rooms := aset st.rooms rid room' }, [])

/-- Finish time validation of player_finish (lines 637 to 655): coerce a
non numeric value to 999.99, floor an early finish of a young race to 30.0,
then clamp into 10.0 to 999.99. The truthiness test on race_start_time at
line 645 is modelled by Option presence: time.time() readings are never
the falsy 0.0. -/
def validateFinishTime (raceStart : Option ℚ) (now : ℚ) (ft : Val) : ℚ :=
  let ft0 := coerceNum (99999 / 100) ft
  let ft1 :=
    match raceStart with
    | some t0 =>
        if now - t0 < 10 ∧ ft0 < 10 then max ft0 30 else ft0
    | none => ft0
  clampQ 10 (99999 / 100) ft1

/-- Stable ascending insertion by finish time: an element is placed before
the first strictly larger key, so earlier list entries precede equal keyed
later ones, matching the stable Python list sort at line 686. -/
def insertByTime (x : String × ℚ) : List (String × ℚ) → List (String × ℚ)
  | [] => [x]
  | y :: t => if x.2 ≤ y.2 then x :: y :: t else y :: insertByTime x t

/-- Stable ascending sort by finish time (results.sort at line 686). -/
def sortByTime : List (String × ℚ) → List (String × ℚ)
  | [] => []
  | x :: t => insertByTime x (sortByTime t)

/-- Handler player_finish (lines 626 to 704): only in a racing room;
validate the reported time, mark the member finished, notify everyone, and
when every member is finished broadcast the sorted results, reset the
status to waiting and delete the finished and finish_time keys of every
member (lines 700 to 704 delete nothing else). The name lookup at line 634
would raise KeyError for a non member before any mutation; a finished
member always carries a finish_time, line 682 would otherwise raise, and
the impossible missing value is read as 0. -/
def hPlayerFinish (st : ServerState) (sid : Sid) (ft : Val) (now : ℚ) :
    ServerState × List Ev :=
  match alookup st.players sid with
  | none => (st, [])
  | some p =>
    match p.room_id with
    | none => (st, [])
    | some rid =>
      match alookup st.rooms rid with
      | none => (st, [])
      | some room =>
        if room.status = Status.racing then
          match alookup room.players sid with
          | none => (st, [])
          | some m =>
            let ftime := validateFinishTime room.race_start_time now ft
            let pl1 := aset room.players sid
              { m with finished := true, finish_time := some ftime }
            let room1 := { room with players := pl1, last_activity := some now }
            let evs1 := pl1.map (fun q => Ev.playerFinished q.1 sid ftime)
            if pl1.all (fun q => q.2.finished) then
              let results := sortByTime
                (pl1.map (fun q => (q.2.name, q.2.finish_time.getD 0)))
              let evs2 := pl1.map (fun q => Ev.raceResults q.1 results)
              let pl2 := pl1.map (fun q =>
                (q.1, { q.2 with finished := false, finish_time := none }))
              let room2 := { room1 with players := pl2, status := Status.waiting }
              ({ st with rooms := aset st.rooms rid room2 }, evs1 ++ evs2)
            else
              ({ st with rooms := aset st.rooms rid room1 }, evs1)
        else (st, [])

/-- Archive removal loop of the cleanup task (lines 740 to 751): for each
timed out name, the archive entry is deleted and then read back at line 745
for its sid; with the entry just deleted that read raises KeyError, which
aborts the whole cycle (flag true) with the deletion kept. The code after
the read, removing the member and notifying, follows the source and runs
only if the read somehow succeeds. -/
def sweepArchive (room : Room) : List String → Room × List Ev × Bool
  | [] => (room, [], false)
  | n :: rest =>
    let arch1 := aerase room.disconnected_players n
    let room1 := { room with disconnected_players := arch1 }
    match alookup arch1 n with
    | none => (room1, [], true)
    | some entry =>
      let re2 : Room × List Ev :=
        if amem room1.players entry.dsid then
          let pl' := aerase room1.players entry.dsid
          ({ room1 with players := pl' },
           pl'.map (fun q => Ev.playerLeft q.1 entry.dsid))
        else (room1, [])
      let r3 := sweepArchive re2.1 rest
      (r3.1, re2.2 ++ r3.2.1, r3.2.2)

/-- Room loop of one cleanup cycle (lines 714 to 751): collect empty and
inactive rooms for removal, and process the expired archive entries of the
rest; a raise inside the archive loop aborts the cycle, keeping the
mutations made so far and dropping the collected removals. Returns the
updated room dict, the ids to remove, the emissions and the error flag. -/
def sweepRooms (now : ℚ) :
    List (RoomId × Room) → List (RoomId × Room) × List RoomId × List Ev × Bool
  | [] => ([], [], [], false)
  | (rid, room) :: rest =>
    if room.players.isEmpty then
      let r := sweepRooms now rest
      ((rid, room) :: r.1, rid :: r.2.1, r.2.2.1, r.2.2.2)
    else if now - (room.last_activity.getD room.created_at) > 600 then
      let r := sweepRooms now rest
      ((rid, room) :: r.1, rid :: r.2.1, r.2.2.1, r.2.2.2)
    else
      let expired := (room.disconnected_players.filter
        (fun q => now - q.2.disconnect_time > q.2.timeout)).map (fun q => q.1)
      let ra := sweepArchive room expired
      if ra.2.2 then ((rid, ra.1) :: rest, [], ra.2.1, true)
      else
        let r := sweepRooms now rest
        ((rid, ra.1) :: r.1, r.2.1, ra.2.1 ++ r.2.2.1, r.2.2.2)

/-- One cycle of cleanup_inactive_rooms (lines 709 to 762): sweep every
room, then apply the collected removals unless the cycle raised; the
surrounding try except isolates the failure, so the next cycle always
runs. Returns the state, emissions and whether this cycle raised. -/
def sweepCycle (st : ServerState) (now : ℚ) : ServerState × List Ev × Bool :=
  let r := sweepRooms now st.rooms
  if r.2.2.2 then ({ st with rooms := r.1 }, r.2.2.1, true)
  else ({ st with rooms := r.2.1.foldl (fun acc rm => aerase acc rm) r.1 },
    r.2.2.1, false)

/-- Syntax of one scheduled unit of work: each inbound event handler up to
its first await, the continuation pieces after each await, and one cleanup
cycle. Generated room ids and clock readings are explicit inputs. -/
inductive Op where
  | connect (sid : Sid) (authName : Option String)
  | disconnect (sid : Sid) (now : ℚ)
  | createRoom (sid : Sid) (rid : RoomId) (roomName : Option String) (now : ℚ)
  | joinRoom (sid : Sid) (rid : RoomId)
  | leaveRoom (sid : Sid)
  | selectCar (sid : Sid) (carName : String) (carIndex : Int) (now : ℚ)
  | playerReady (sid : Sid) (rdy : Bool) (now : ℚ)
  | chatMessage (sid : Sid) (msg : String) (now : ℚ)
  | startRace (sid : Sid)
  | startRaceCountdown (rid : RoomId)
  | startRaceGo (rid : RoomId) (starter : Sid) (now : ℚ)
  | playerUpdate (sid : Sid) (pos spd : Val) (now : ℚ)
  | joinRace (sid : Sid) (rid : RoomId) (pname : Option String)
      (car : Option CarData) (carName : Option String) (isHost : Bool) (now : ℚ)
  | joinRaceCountdown (sid : Sid)
  | joinRaceGo (sid : Sid) (rid : RoomId)
  | playerReadyToRace (sid : Sid)
  | playerFinish (sid : Sid) (ft : Val) (now : ℚ)
  | sweep (now : ℚ)
deriving DecidableEq, Repr

/-- Apply one unit of work to the state (emissions and crash flags are
dropped here; the state effects of a crashing continuation persist). -/
def applyOp (st : ServerState) : Op → ServerState × List Ev
  | .connect sid n => hConnect st sid n
  | .disconnect sid now => hDisconnect st sid now
  | .createRoom sid rid rn now => hCreateRoom st sid rid rn now
  | .joinRoom sid rid => hJoinRoom st sid rid
  | .leaveRoom sid => hLeaveRoom st sid
  | .selectCar sid cn ci now => hSelectCar st sid cn ci now
  | .playerReady sid b now => hPlayerReady st sid b now
  | .chatMessage sid msg now => hChat st sid msg now
  | .startRace sid => hStartRace st sid
  | .startRaceCountdown rid => hStartRaceCountdown st rid
  | .startRaceGo rid starter now => (hStartRaceGo st rid starter now).1
  | .playerUpdate sid pos spd now => hPlayerUpdate st sid pos spd now
  | .joinRace sid rid pn car cn ih now => hJoinRace st sid rid pn car cn ih now
  | .joinRaceCountdown sid => hJoinRaceCountdown st sid
  | .joinRaceGo sid rid => (hJoinRaceGo st sid rid).1
  | .playerReadyToRace sid => hPlayerReadyToRace st sid
  | .playerFinish sid ft now => hPlayerFinish st sid ft now
  | .sweep now => ((sweepCycle st now).1, (sweepCycle st now).2.1)

/-- Run a sequence of units of work from a state. -/
def runOps (st : ServerState) : List Op → ServerState
  | [] => st
  | op :: rest => runOps (applyOp st op).1 rest

/-- Environment conditions under which one unit of work is dispatched:
join_race draws a fresh uuid based id (the probabilistic guarantee of the
generator, made a hypothesis here), and create_room is only dispatched for
a registered connection (the transport fires handlers only between connect
and disconnect of a sid). -/
def okOp (st : ServerState) : Op → Bool
  | .joinRace _ rid _ _ _ _ _ => !(amem st.rooms rid)
  | .createRoom sid _ _ _ => amem st.players sid
  | _ => true

/-- A trace whose every step satisfies okOp in the state it runs in. -/
def okTrace (st : ServerState) : List Op → Bool
  | [] => true
  | op :: rest => okOp st op && okTrace (applyOp st op).1 rest

section MoreAssocLemmas

variable {α β : Type} [DecidableEq α]

theorem length_aset_eq : ∀ {l : List (α × β)} {k : α} {v0 : β},
    alookup l k = some v0 → ∀ v, (aset l k v).length = l.length := by
  intro l
  induction l with
  | nil =>
    intro k v0 h
    simp [alookup] at h
  | cons hd t ih =>
    intro k v0 h v
    obtain ⟨k0, w⟩ := hd
    by_cases hk : k0 = k
    · simp [aset, hk]
    · rw [show alookup ((k0, w) :: t) k = alookup t k by simp [alookup, hk]] at h
      simp [aset, hk, ih h v]

theorem amodify_aset_self (f : β → β) :
    ∀ (l : List (α × β)) (k : α) (v : β),
    amodify f (aset l k v) k = aset l k (f v) := by
  intro l
  induction l with
  | nil =>
    intro k v
    simp [aset, amodify]
  | cons hd t ih =>
    intro k v
    obtain ⟨k0, w⟩ := hd
    by_cases hk : k0 = k
    · simp [aset, amodify, hk]
    · simp [aset, amodify, hk, ih]

theorem alookup_aset_self : ∀ (l : List (α × β)) (k : α) (v : β),
    alookup (aset l k v) k = some v := by
  intro l
  induction l with
  | nil =>
    intro k v
    simp [aset, alookup]
  | cons hd t ih =>
    intro k v
    obtain ⟨k0, w⟩ := hd
    by_cases hk : k0 = k
    · simp [aset, alookup, hk]
    · simp [aset, alookup, hk, ih]

theorem alookup_aset_ne : ∀ (l : List (α × β)) {k k' : α} (v : β),
    k ≠ k' → alookup (aset l k v) k' = alookup l k' := by
  intro l
  induction l with
  | nil =>
    intro k k' v hne
    simp [aset, alookup, hne]
  | cons hd t ih =>
    intro k k' v hne
    obtain ⟨k0, w⟩ := hd
    by_cases hk : k0 = k
    · subst hk
      simp [aset, alookup, hne]
    · simp only [aset, if_neg hk, alookup]
      by_cases hk' : k0 = k'
      · simp [hk']
      · simp [hk', ih _ hne]

theorem aset_ne_nil : ∀ (l : List (α × β)) (k : α) (v : β),
    aset l k v ≠ [] := by
  intro l k v
  match l with
  | [] => simp [aset]
  | (k0, v0) :: t =>
    by_cases hk : k0 = k
    · simp [aset, hk]
    · simp [aset, hk]

theorem mem_foldl_aerase : ∀ (ks : List α) (l : List (α × β)) {q : α × β},
    q ∈ ks.foldl (fun acc r => aerase acc r) l → q ∈ l := by
  intro ks
  induction ks with
  | nil =>
    intro l q h
    simpa using h
  | cons k rest ih =>
    intro l q h
    exact mem_aerase (ih _ h)

end MoreAssocLemmas

/-- Capacity invariant of claim C1: every registered room has at most two
members. -/
def PlBounded (rs : List (RoomId × Room)) : Prop :=
  ∀ q ∈ rs, q.2.players.length ≤ 2

theorem PlBounded.setRoom {rs : List (RoomId × Room)} {rid : RoomId}
    {room : Room} (h : PlBounded rs) (hr : room.players.length ≤ 2) :
    PlBounded (aset rs rid room) := by
  intro q hq
  rcases mem_aset hq with hq | hq
  · rw [hq]
    exact hr
  · exact h q hq

theorem PlBounded.dropRoom {rs : List (RoomId × Room)} {rid : RoomId}
    (h : PlBounded rs) : PlBounded (aerase rs rid) :=
  fun q hq => h q (mem_aerase hq)

theorem promoteHead_players_length (pl : List (Sid × Member)) :
    (promoteHead pl).2.1.length = pl.length := by
  unfold promoteHead
  match pl with
  | [] => simp [headKey]
  | (k, m) :: t => simp [headKey, length_amodify]

theorem sweepArchive_players_length :
    ∀ (ns : List String) (room : Room),
    (sweepArchive room ns).1.players.length ≤ room.players.length := by
  intro ns
  induction ns with
  | nil =>
    intro room
    simp [sweepArchive]
  | cons n rest ih =>
    intro room
    simp only [sweepArchive]
    split
    · simp
    next entry hent =>
      split
      next hmem =>
        calc (sweepArchive _ rest).1.players.length
            ≤ (aerase room.players entry.dsid).length := ih _
          _ ≤ room.players.length := length_aerase_le _ _
      next hmem => exact ih _

theorem plb_sweepRooms (now : ℚ) :
    ∀ rs : List (RoomId × Room), PlBounded rs →
    PlBounded (sweepRooms now rs).1 := by
  intro rs
  induction rs with
  | nil =>
    intro h
    simp [sweepRooms, PlBounded]
  | cons hd rest ih =>
    intro h
    obtain ⟨rid, room⟩ := hd
    have hTail : PlBounded rest := fun q hq => h q (List.mem_cons_of_mem _ hq)
    have hHead : room.players.length ≤ 2 := h (rid, room) (by simp)
    simp only [sweepRooms]
    split
    · intro q hq
      rcases List.mem_cons.mp hq with rfl | hq
      · exact hHead
      · exact ih hTail q hq
    · split
      · intro q hq
        rcases List.mem_cons.mp hq with rfl | hq
        · exact hHead
        · exact ih hTail q hq
      · split
        next herr =>
          intro q hq
          rcases List.mem_cons.mp hq with rfl | hq
          · exact le_trans (sweepArchive_players_length _ _) hHead
          · exact hTail q hq
        next herr =>
          intro q hq
          rcases List.mem_cons.mp hq with rfl | hq
          · exact le_trans (sweepArchive_players_length _ _) hHead
          · exact ih hTail q hq

theorem plb_step (st : ServerState) (op : Op) (h : PlBounded st.rooms)
    (hok : okOp st op = true) : PlBounded (applyOp st op).1.rooms := by
  cases op with
  | connect sid n => simpa [applyOp, hConnect] using h
  | disconnect sid now =>
    simp only [applyOp, hDisconnect]
    split
    · exact h
    next p hp =>
      split
      · exact h
      next rid hrid =>
        split
        · exact h
        next room hroom =>
          split
          · exact h
          next m hm =>
            split
            next hrac =>
              split
              next hhost =>
                split
                next hpl => exact h.dropRoom
                next a b hpl =>
                  refine h.setRoom ?_
                  simp only [promoteHead_players_length,
                    length_aset_eq hm]
                  exact h _ (alookup_mem hroom)
              next hhost =>
                refine h.setRoom ?_
                simpa only [length_aset_eq hm] using h _ (alookup_mem hroom)
            next hrac =>
              split
              next hhost =>
                split
                next hpl => exact h.dropRoom
                next a b hpl =>
                  refine h.setRoom ?_
                  calc (promoteHead (aerase room.players sid)).2.1.length
                      = (aerase room.players sid).length :=
                        promoteHead_players_length _
                    _ ≤ room.players.length := length_aerase_le _ _
                    _ ≤ 2 := h _ (alookup_mem hroom)
              next hhost =>
                refine h.setRoom ?_
                calc (aerase room.players sid).length
                    ≤ room.players.length := length_aerase_le _ _
                  _ ≤ 2 := h _ (alookup_mem hroom)
  | createRoom sid rid rn now =>
    simp only [applyOp, hCreateRoom]
    split
    · exact h.setRoom (by simp)
    next p hp =>
      simp only [amodify_aset_self]
      refine h.setRoom ?_
      simp [aset]
  | joinRoom sid rid =>
    simp only [applyOp, hJoinRoom]
    split
    · exact h
    next room hroom =>
      split
      next hfull => exact h
      next hfull =>
        split
        next hrac => exact h
        next hrac =>
          split
          · exact h
          next p hp =>
            refine h.setRoom ?_
            dsimp only
            have h1 := length_aset_le room.players sid
              { name := p.pname : Member }
            omega
  | leaveRoom sid =>
    simp only [applyOp, hLeaveRoom]
    split
    · exact h
    next p hp =>
      split
      · exact h
      next rid hrid =>
        split
        · exact h
        next room hroom =>
          split
          · exact h
          next m hm =>
            split
            next hhost =>
              split
              next hpl => exact h.dropRoom
              next a b hpl =>
                refine h.setRoom ?_
                calc (promoteHead (aerase room.players sid)).2.1.length
                    = (aerase room.players sid).length :=
                      promoteHead_players_length _
                  _ ≤ room.players.length := length_aerase_le _ _
                  _ ≤ 2 := h _ (alookup_mem hroom)
            next hhost =>
              refine h.setRoom ?_
              calc (aerase room.players sid).length
                  ≤ room.players.length := length_aerase_le _ _
                _ ≤ 2 := h _ (alookup_mem hroom)
  | selectCar sid cn ci now =>
    simp only [applyOp, hSelectCar]
    split
    · exact h
    next p hp =>
      split
      · exact h
      next rid hrid =>
        split
        · exact h
        next room hroom =>
          split
          · exact h
          next m hm =>
            refine h.setRoom ?_
            simpa only [length_aset_eq hm] using h _ (alookup_mem hroom)
  | playerReady sid b now =>
    simp only [applyOp, hPlayerReady]
    split
    · exact h
    next p hp =>
      split
      · exact h
      next rid hrid =>
        split
        · exact h
        next room hroom =>
          split
          · exact h
          next m hm =>
            refine h.setRoom ?_
            simpa only [length_aset_eq hm] using h _ (alookup_mem hroom)
  | chatMessage sid msg now =>
    simp only [applyOp, hChat]
    split
    · exact h
    next p hp =>
      split
      · exact h
      next rid hrid =>
        split
        · exact h
        next room hroom =>
          split
          · exact h
          next m hm =>
            exact h.setRoom (h _ (alookup_mem hroom))
  | startRace sid =>
    simp only [applyOp, hStartRace]
    split
    · exact h
    next p hp =>
      split
      · exact h
      next rid hrid =>
        split
        · exact h
        next room hroom =>
          split
          next hcnt => exact h
          next hcnt =>
            have hpro : PlBounded (hStartRaceProceed st sid rid room).1.rooms := by
              simp only [hStartRaceProceed]
              split
              · exact h.setRoom (h _ (alookup_mem hroom))
              · exact h
            split
            next hhost => exact hpro
            next hhost =>
              split
              · exact h
              next m hm =>
                split
                next hr => exact hpro
                next hr => exact h
  | startRaceCountdown rid =>
    simp only [applyOp, hStartRaceCountdown]
    split
    · exact h
    next room hroom => exact h
  | startRaceGo rid starter now =>
    simp only [applyOp, hStartRaceGo]
    split
    · exact h
    next room hroom =>
      split
      next hpl => exact h.setRoom (h _ (alookup_mem hroom))
      next a b hpl =>
        split
        · exact h.setRoom (h _ (alookup_mem hroom))
        next q hq => exact h.setRoom (h _ (alookup_mem hroom))
  | playerUpdate sid pos spd now =>
    simp only [applyOp, hPlayerUpdate]
    split
    · exact h
    next p hp =>
      split
      · exact h
      next rid hrid =>
        split
        · exact h
        next room hroom =>
          split
          next hrac =>
            split
            · exact h
            next m hm =>
              split
              · exact h
              next position hpos =>
                refine h.setRoom ?_
                simpa only [length_aset_eq hm] using h _ (alookup_mem hroom)
          next hrac => exact h
  | joinRace sid rid pn car cn ih now =>
    have hfresh : amem st.rooms rid = false := by
      simp only [okOp] at hok
      simpa using hok
    simp only [applyOp, hJoinRace, hfresh, Bool.false_eq_true, if_false,
      amodify_aset_self]
    split
    next hihost =>
      simp only [amodify_aset_self]
      refine h.setRoom ?_
      simp [aset]
    next hihost =>
      refine h.setRoom ?_
      simp [aset]
  | joinRaceCountdown sid =>
    simpa [applyOp, hJoinRaceCountdown] using h
  | joinRaceGo sid rid =>
    simp only [applyOp, hJoinRaceGo]
    split
    · exact h
    next r hr => exact h
  | playerReadyToRace sid =>
    simp only [applyOp, hPlayerReadyToRace]
    split
    · exact h
    next p hp =>
      split
      · exact h
      next rid hrid =>
        split
        · exact h
        next room hroom =>
          split
          · exact h
          next m hm =>
            refine h.setRoom ?_
            simpa only [length_aset_eq hm] using h _ (alookup_mem hroom)
  | playerFinish sid ft now =>
    simp only [applyOp, hPlayerFinish]
    split
    · exact h
    next p hp =>
      split
      · exact h
      next rid hrid =>
        split
        · exact h
        next room hroom =>
          split
          next hrac =>
            split
            · exact h
            next m hm =>
              split
              next hall =>
                refine h.setRoom ?_
                simp only [List.length_map, length_aset_eq hm]
                exact h _ (alookup_mem hroom)
              next hall =>
                refine h.setRoom ?_
                simpa only [length_aset_eq hm] using h _ (alookup_mem hroom)
          next hrac => exact h
  | sweep now =>
    simp only [applyOp, sweepCycle]
    split
    next herr => exact plb_sweepRooms now _ h
    next herr =>
      intro q hq
      exact plb_sweepRooms now _ h q (mem_foldl_aerase _ _ hq)

section KeyLemmas

variable {α β : Type} [DecidableEq α]

theorem aerase_sublist : ∀ (l : List (α × β)) (k : α),
    List.Sublist (aerase l k) l := by
  intro l
  induction l with
  | nil =>
    intro k
    simp [aerase]
  | cons hd t ih =>
    intro k
    obtain ⟨k0, v0⟩ := hd
    by_cases hk : k0 = k
    · rw [show aerase ((k0, v0) :: t) k = t by simp [aerase, hk]]
      exact (List.Sublist.refl t).cons _
    · rw [show aerase ((k0, v0) :: t) k = (k0, v0) :: aerase t k by
        simp [aerase, hk]]
      exact List.Sublist.cons₂ _ (ih k)

theorem nodup_keys_aerase {l : List (α × β)} {k : α}
    (h : (l.map Prod.fst).Nodup) : ((aerase l k).map Prod.fst).Nodup :=
  h.sublist ((aerase_sublist l k).map Prod.fst)

theorem alookup_eq_none_of_not_mem_keys : ∀ {l : List (α × β)} {k : α},
    k ∉ l.map Prod.fst → alookup l k = none := by
  intro l
  induction l with
  | nil =>
    intro k h
    simp [alookup]
  | cons hd t ih =>
    intro k h
    obtain ⟨k0, v0⟩ := hd
    simp only [List.map_cons, List.mem_cons] at h
    push_neg at h
    have hk0 : k0 ≠ k := fun hx => h.1 hx.symm
    simp only [alookup, if_neg hk0]
    exact ih h.2

theorem mem_keys_of_alookup {l : List (α × β)} {k : α} {v : β}
    (h : alookup l k = some v) : k ∈ l.map Prod.fst := by
  exact List.mem_map.mpr ⟨(k, v), alookup_mem h, rfl⟩

theorem not_mem_keys_of_alookup_none : ∀ {l : List (α × β)} {k : α},
    alookup l k = none → k ∉ l.map Prod.fst := by
  intro l
  induction l with
  | nil =>
    intro k h
    simp
  | cons hd t ih =>
    intro k h
    obtain ⟨k0, v0⟩ := hd
    by_cases hk : k0 = k
    · simp [alookup, hk] at h
    · rw [show alookup ((k0, v0) :: t) k = alookup t k by
        simp [alookup, hk]] at h
      simp only [List.map_cons, List.mem_cons]
      push_neg
      exact ⟨fun hx => hk hx.symm, ih h⟩

theorem alookup_aerase_self {l : List (α × β)} {k : α}
    (h : (l.map Prod.fst).Nodup) : alookup (aerase l k) k = none := by
  induction l with
  | nil => simp [aerase, alookup]
  | cons hd t ih =>
    obtain ⟨k0, v0⟩ := hd
    simp only [List.map_cons, List.nodup_cons] at h
    by_cases hk : k0 = k
    · rw [show aerase ((k0, v0) :: t) k = t by simp [aerase, hk]]
      exact alookup_eq_none_of_not_mem_keys (hk ▸ h.1)
    · rw [show aerase ((k0, v0) :: t) k = (k0, v0) :: aerase t k by
        simp [aerase, hk]]
      simp only [alookup, if_neg hk]
      exact ih h.2

theorem keys_aset_mem : ∀ {l : List (α × β)} {k : α} {v0 : β},
    alookup l k = some v0 → ∀ v, (aset l k v).map Prod.fst = l.map Prod.fst := by
  intro l
  induction l with
  | nil =>
    intro k v0 h
    simp [alookup] at h
  | cons hd t ih =>
    intro k v0 h v
    obtain ⟨k0, w⟩ := hd
    by_cases hk : k0 = k
    · simp [aset, hk]
    · rw [show alookup ((k0, w) :: t) k = alookup t k by simp [alookup, hk]] at h
      simp [aset, hk, ih h v]

theorem keys_aset_none : ∀ {l : List (α × β)} {k : α},
    alookup l k = none →
    ∀ v : β, (aset l k v).map Prod.fst = l.map Prod.fst ++ [k] := by
  intro l
  induction l with
  | nil =>
    intro k h v
    simp [aset]
  | cons hd t ih =>
    intro k h v
    obtain ⟨k0, w⟩ := hd
    by_cases hk : k0 = k
    · simp [alookup, hk] at h
    · rw [show alookup ((k0, w) :: t) k = alookup t k by simp [alookup, hk]] at h
      simp [aset, hk, ih h v]

theorem nodup_keys_aset {l : List (α × β)} {k : α}
    (h : (l.map Prod.fst).Nodup) (v : β) :
    ((aset l k v).map Prod.fst).Nodup := by
  cases hl : alookup l k with
  | some v0 => rw [keys_aset_mem hl v]; exact h
  | none =>
    rw [keys_aset_none hl v]
    have hk := not_mem_keys_of_alookup_none hl
    simp [List.nodup_append, h, hk]

theorem keys_amodify (f : β → β) :
    ∀ (l : List (α × β)) (k : α),
    (amodify f l k).map Prod.fst = l.map Prod.fst := by
  intro l
  induction l with
  | nil =>
    intro k
    simp [amodify]
  | cons hd t ih =>
    intro k
    obtain ⟨k0, v0⟩ := hd
    by_cases hk : k0 = k
    · simp [amodify, hk]
    · simp [amodify, hk, ih]

theorem headKey_aset_of_ne_nil {l : List (α × β)} (hl : l ≠ []) (k : α)
    (v : β) : headKey (aset l k v) = headKey l := by
  match l with
  | [] => exact absurd rfl hl
  | (k0, v0) :: t =>
    by_cases hk : k0 = k
    · simp [aset, hk, headKey]
    · simp [aset, hk, headKey]

theorem headKey_amodify (f : β → β) (l : List (α × β)) (k : α) :
    headKey (amodify f l k) = headKey l := by
  match l with
  | [] => simp [amodify]
  | (k0, v0) :: t =>
    by_cases hk : k0 = k
    · simp [amodify, hk, headKey]
    · simp [amodify, hk, headKey]

theorem headKey_aerase_of_ne {l : List (α × β)} {hh k : α}
    (h : headKey l = some hh) (hne : hh ≠ k) :
    headKey (aerase l k) = some hh := by
  match l with
  | [] => simp [headKey] at h
  | (k0, v0) :: t =>
    simp only [headKey, Option.some.injEq] at h
    have hk0 : k0 ≠ k := by
      rw [h]
      exact hne
    rw [show aerase ((k0, v0) :: t) k = (k0, v0) :: aerase t k by
      simp [aerase, hk0]]
    simp [headKey, h]

theorem headKey_eq_some {l : List (α × β)} {k : α}
    (h : headKey l = some k) : ∃ v t, l = (k, v) :: t := by
  match l with
  | [] => simp [headKey] at h
  | (k0, v0) :: t =>
    simp only [headKey, Option.some.injEq] at h
    exact ⟨v0, t, by rw [h]⟩

theorem entry_unique_of_nodup_keys {l : List (α × β)} {q1 q2 : α × β}
    (h : (l.map Prod.fst).Nodup) (h1 : q1 ∈ l) (h2 : q2 ∈ l)
    (hk : q1.1 = q2.1) : q1 = q2 := by
  induction l with
  | nil => simp at h1
  | cons hd t ih =>
    simp only [List.map_cons, List.nodup_cons] at h
    rcases List.mem_cons.mp h1 with rfl | h1'
    · rcases List.mem_cons.mp h2 with rfl | h2'
      · rfl
      · exact absurd (hk ▸ List.mem_map.mpr ⟨q2, h2', rfl⟩) h.1
    · rcases List.mem_cons.mp h2 with rfl | h2'
      · exact absurd (hk ▸ List.mem_map.mpr ⟨q1, h1', rfl⟩) h.1
      · exact ih h.2 h1' h2'

end KeyLemmas

/-- Host structure invariant of one room, strong enough to be inductive:
member keys are distinct, any member flagged is_host is the registered
host_sid, a registered host is the first member, and archive keys are
distinct. -/
def HRoomInv (room : Room) : Prop :=
  (room.players.map Prod.fst).Nodup ∧
  (∀ q ∈ room.players, q.2.is_host = true → room.host_sid = some q.1) ∧
  (∀ hh : Sid, room.host_sid = some hh → headKey room.players = some hh) ∧
  (room.disconnected_players.map Prod.fst).Nodup

/-- Host structure invariant over the whole registry. -/
def HInv (rs : List (RoomId × Room)) : Prop := ∀ q ∈ rs, HRoomInv q.2

/-- HRoomInv only depends on players, host_sid and the archive, so any
update leaving those three alone preserves it. -/
theorem HRoomInv.core {room room' : Room} (hinv : HRoomInv room)
    (hp : room'.players = room.players) (hh : room'.host_sid = room.host_sid)
    (hd : room'.disconnected_players = room.disconnected_players) :
    HRoomInv room' := by
  unfold HRoomInv at hinv ⊢
  rw [hp, hh, hd]
  exact hinv

/-- Updating an existing member without changing its host flag preserves
the room invariant. -/
theorem HRoomInv.setMember {room : Room} (hinv : HRoomInv room) {sid : Sid}
    {m m' : Member} (hm : alookup room.players sid = some m) {room' : Room}
    (hp : room'.players = aset room.players sid m')
    (hflag : m'.is_host = m.is_host)
    (hh : room'.host_sid = room.host_sid)
    (hd : room'.disconnected_players = room.disconnected_players) :
    HRoomInv room' := by
  obtain ⟨h1, h2, h3, h4⟩ := hinv
  refine ⟨?_, ?_, ?_, ?_⟩
  · rw [hp, keys_aset_mem hm]
    exact h1
  · intro q hq hq2
    rw [hp] at hq
    rw [hh]
    rcases mem_aset hq with rfl | hq'
    · exact h2 (sid, m) (alookup_mem hm) (by simpa [hflag] using hq2)
    · exact h2 q hq' hq2
  · intro hhx hhost
    rw [hh] at hhost
    have := h3 hhx hhost
    rw [hp, headKey_aset_of_ne_nil ?_ sid m']
    · exact this
    · intro hnil
      rw [hnil] at hm
      simp [alookup] at hm
  · rw [hd]
    exact h4

/-- Rewriting every member value with a key preserving, host flag
preserving function preserves the room invariant. -/
theorem HRoomInv.mapMembers {room : Room} (hinv : HRoomInv room)
    (g : Member → Member) (hg : ∀ m, (g m).is_host = m.is_host)
    {room' : Room}
    (hp : room'.players = room.players.map (fun q => (q.1, g q.2)))
    (hh : room'.host_sid = room.host_sid)
    (hd : room'.disconnected_players = room.disconnected_players) :
    HRoomInv room' := by
  obtain ⟨h1, h2, h3, h4⟩ := hinv
  have hkeys : room'.players.map Prod.fst = room.players.map Prod.fst := by
    rw [hp, List.map_map]
    rfl
  refine ⟨?_, ?_, ?_, ?_⟩
  · rw [hkeys]
    exact h1
  · intro q hq hq2
    rw [hp] at hq
    rcases List.mem_map.mp hq with ⟨q0, hq0, rfl⟩
    rw [hh]
    exact h2 q0 hq0 (by simpa [hg] using hq2)
  · intro hhx hhost
    rw [hh] at hhost
    have h5 := h3 hhx hhost
    obtain ⟨v, t, heq⟩ := headKey_eq_some h5
    rw [hp, heq]
    simp [headKey]
  · rw [hd]
    exact h4

/-- Promoting the first member of a players dict with distinct keys whose
flagged hosts all carry the given key produces a dict whose flagged hosts
all carry the new head key, which is also the head key of the result. -/
theorem promoteHead_invariant {pl : List (Sid × Member)} {a : Sid × Member}
    {b : List (Sid × Member)} (hpl : pl = a :: b)
    (hnodup : (pl.map Prod.fst).Nodup) :
    (promoteHead pl).1 = some a.1 ∧
    headKey (promoteHead pl).2.1 = some a.1 ∧
    ((promoteHead pl).2.1.map Prod.fst).Nodup ∧
    (∀ q ∈ (promoteHead pl).2.1, q.2.is_host = true →
      q.1 = a.1 ∨ (q ∈ pl ∧ q.2.is_host = true)) := by
  subst hpl
  obtain ⟨ka, va⟩ := a
  have hred : promoteHead ((ka, va) :: b) =
      (some ka, amodify (fun m => { m with is_host := true })
        ((ka, va) :: b) ka, [Ev.hostTransferred ka]) := rfl
  rw [hred]
  refine ⟨rfl, ?_, ?_, ?_⟩
  · rw [headKey_amodify]
    rfl
  · rw [keys_amodify]
    exact hnodup
  · intro q hq hq2
    rcases mem_amodify hq with hq' | ⟨v, hv, rfl⟩
    · exact Or.inr ⟨hq', hq2⟩
    · exact Or.inl rfl

theorem HInv.setRoomInv {rs : List (RoomId × Room)} {rid : RoomId} {room : Room}
    (h : HInv rs) (hr : HRoomInv room) : HInv (aset rs rid room) := by
  intro q hq
  rcases mem_aset hq with rfl | hq
  · exact hr
  · exact h q hq

theorem HInv.dropRoomInv {rs : List (RoomId × Room)} {rid : RoomId}
    (h : HInv rs) : HInv (aerase rs rid) :=
  fun q hq => h q (mem_aerase hq)

/-- Promoting the head of a players dict in which every flagged host
already carries the head key yields a dict satisfying the three member
facing clauses of the room invariant with the promoted head as host. -/
theorem promote_preserves {pl : List (Sid × Member)} {a : Sid × Member}
    {b : List (Sid × Member)} (hpl : pl = a :: b)
    (hnodup : (pl.map Prod.fst).Nodup)
    (hall : ∀ q ∈ pl, q.2.is_host = true → q.1 = a.1) :
    ((promoteHead pl).2.1.map Prod.fst).Nodup ∧
    (∀ q ∈ (promoteHead pl).2.1, q.2.is_host = true →
      (promoteHead pl).1 = some q.1) ∧
    (∀ hh : Sid, (promoteHead pl).1 = some hh →
      headKey (promoteHead pl).2.1 = some hh) := by
  subst hpl
  obtain ⟨ka, va⟩ := a
  have hred : promoteHead ((ka, va) :: b) =
      (some ka, amodify (fun m => { m with is_host := true })
        ((ka, va) :: b) ka, [Ev.hostTransferred ka]) := rfl
  rw [hred]
  refine ⟨?_, ?_, ?_⟩
  · rw [keys_amodify]
    exact hnodup
  · intro q hq hq2
    rcases mem_amodify hq with hq' | ⟨v, hv, rfl⟩
    · rw [hall q hq' hq2]
    · rfl
  · intro hh hhh
    obtain rfl : ka = hh := by injection hhh
    rw [headKey_amodify]
    rfl

/-- Member update that also writes one archive entry (the racing branch of
disconnect) preserves the room invariant. -/
theorem HRoomInv.setMemberArch {room : Room} (hinv : HRoomInv room)
    {sid : Sid} {m m' : Member} (hm : alookup room.players sid = some m)
    {nm : String} {en : DiscEntry} {room' : Room}
    (hp : room'.players = aset room.players sid m')
    (hflag : m'.is_host = m.is_host)
    (hh : room'.host_sid = room.host_sid)
    (hd : room'.disconnected_players =
      aset room.disconnected_players nm en) :
    HRoomInv room' := by
  obtain ⟨h1, h2, h3, h4⟩ := hinv
  refine ⟨?_, ?_, ?_, ?_⟩
  · rw [hp, keys_aset_mem hm]
    exact h1
  · intro q hq hq2
    rw [hp] at hq
    rw [hh]
    rcases mem_aset hq with rfl | hq'
    · exact h2 (sid, m) (alookup_mem hm) (by simpa [hflag] using hq2)
    · exact h2 q hq' hq2
  · intro hhx hhost
    rw [hh] at hhost
    have h5 := h3 hhx hhost
    rw [hp, headKey_aset_of_ne_nil ?_ sid m']
    · exact h5
    · intro hnil
      rw [hnil] at hm
      simp [alookup] at hm
  · rw [hd]
    exact nodup_keys_aset h4 en

/-- The archive removal loop keeps the room invariant: with distinct
archive keys the read back after a deletion always raises, so only the
deletion itself survives. -/
theorem hinv_sweepArchive {room : Room} (hinv : HRoomInv room) :
    ∀ ns : List String, HRoomInv (sweepArchive room ns).1 := by
  intro ns
  cases ns with
  | nil => exact hinv
  | cons n rest =>
    obtain ⟨h1, h2, h3, h4⟩ := hinv
    simp only [sweepArchive]
    rw [show alookup (aerase room.disconnected_players n) n = none from
      alookup_aerase_self h4]
    exact ⟨h1, h2, h3, nodup_keys_aerase h4⟩

theorem hinv_sweepRooms (now : ℚ) :
    ∀ rs : List (RoomId × Room), HInv rs → HInv (sweepRooms now rs).1 := by
  intro rs
  induction rs with
  | nil =>
    intro h
    simp [sweepRooms, HInv]
  | cons hd rest ih =>
    intro h
    obtain ⟨rid, room⟩ := hd
    have hTail : HInv rest := fun q hq => h q (List.mem_cons_of_mem _ hq)
    have hHead : HRoomInv room := h (rid, room) (by simp)
    simp only [sweepRooms]
    split
    · intro q hq
      rcases List.mem_cons.mp hq with rfl | hq
      · exact hHead
      · exact ih hTail q hq
    · split
      · intro q hq
        rcases List.mem_cons.mp hq with rfl | hq
        · exact hHead
        · exact ih hTail q hq
      · split
        next herr =>
          intro q hq
          rcases List.mem_cons.mp hq with rfl | hq
          · exact hinv_sweepArchive hHead _
          · exact hTail q hq
        next herr =>
          intro q hq
          rcases List.mem_cons.mp hq with rfl | hq
          · exact hinv_sweepArchive hHead _
          · exact ih hTail q hq

/-- Host transfer on a nonempty players dict whose flagged hosts are all
the departing host and whose head is that host (the racing disconnect
case, nothing removed) or a dict from which the host was just erased (the
other departure cases): packaged for reuse. -/
theorem promote_after_erase {room : Room} (hri : HRoomInv room) {sid : Sid}
    (hhost : room.host_sid = some sid) {a : Sid × Member}
    {b : List (Sid × Member)}
    (hpl : aerase room.players sid = a :: b) :
    (((promoteHead (aerase room.players sid)).2.1).map Prod.fst).Nodup ∧
    (∀ q ∈ (promoteHead (aerase room.players sid)).2.1,
      q.2.is_host = true →
      (promoteHead (aerase room.players sid)).1 = some q.1) ∧
    (∀ hh : Sid, (promoteHead (aerase room.players sid)).1 = some hh →
      headKey (promoteHead (aerase room.players sid)).2.1 = some hh) := by
  obtain ⟨h1, h2, h3, h4⟩ := hri
  have hhd := h3 sid hhost
  obtain ⟨v, t, hplayers⟩ := headKey_eq_some hhd
  have hte : aerase room.players sid = t := by
    rw [hplayers]
    simp [aerase]
  have hnodup : ((aerase room.players sid).map Prod.fst).Nodup :=
    nodup_keys_aerase h1
  refine promote_preserves hpl hnodup ?_
  intro q hq hq2
  have hq' : q ∈ room.players := mem_aerase hq
  have := h2 q hq' hq2
  rw [hhost] at this
  obtain hqs : q.1 = sid := by injection this.symm
  exfalso
  rw [hte] at hq
  rw [hplayers] at h1
  simp only [List.map_cons, List.nodup_cons] at h1
  exact h1.1 (hqs ▸ List.mem_map.mpr ⟨q, hq, rfl⟩)

/-- Host transfer in the racing branch of disconnect: nothing was removed,
the flags of the departing host were updated in place, and the promoted
head is the host itself. -/
theorem racing_host_transfer {room : Room} (hri : HRoomInv room)
    {sid : Sid} {m m' : Member} (hm : alookup room.players sid = some m)
    (hhost : room.host_sid = some sid) {a : Sid × Member}
    {b : List (Sid × Member)} (hpl : aset room.players sid m' = a :: b) :
    (((promoteHead (aset room.players sid m')).2.1).map Prod.fst).Nodup ∧
    (∀ q ∈ (promoteHead (aset room.players sid m')).2.1,
      q.2.is_host = true →
      (promoteHead (aset room.players sid m')).1 = some q.1) ∧
    (∀ hh : Sid, (promoteHead (aset room.players sid m')).1 = some hh →
      headKey (promoteHead (aset room.players sid m')).2.1 = some hh) := by
  have hnodup : ((aset room.players sid m').map Prod.fst).Nodup := by
    rw [keys_aset_mem hm]
    exact hri.1
  have hne : room.players ≠ [] := by
    intro hnil
    rw [hnil] at hm
    simp [alookup] at hm
  have hhd : headKey (aset room.players sid m') = some sid := by
    rw [headKey_aset_of_ne_nil hne sid m']
    exact hri.2.2.1 sid hhost
  have hasid : a.1 = sid := by
    rw [hpl] at hhd
    obtain ⟨ka, va⟩ := a
    simpa [headKey] using hhd
  refine promote_preserves hpl hnodup ?_
  intro q hq hq2
  rcases mem_aset hq with rfl | hq'
  · rw [hasid]
  · have h5 := hri.2.1 q hq' hq2
    rw [hhost] at h5
    obtain hqs : sid = q.1 := by injection h5
    rw [← hqs, hasid]

theorem hinv_step (st : ServerState) (op : Op) (h : HInv st.rooms)
    (hok : okOp st op = true) : HInv (applyOp st op).1.rooms := by
  cases op with
  | connect sid n => simpa [applyOp, hConnect] using h
  | disconnect sid now =>
    simp only [applyOp, hDisconnect]
    split
    · exact h
    next p hp =>
      split
      · exact h
      next rid hrid =>
        split
        · exact h
        next room hroom =>
          split
          · exact h
          next m hm =>
            have hri : HRoomInv room := h _ (alookup_mem hroom)
            split
            next hrac =>
              split
              next hhost =>
                split
                next hpl =>
                  exact absurd hpl (aset_ne_nil _ _ _)
                next a b hpl =>
                  refine h.setRoomInv ?_
                  have hpp := racing_host_transfer hri hm hhost hpl
                  exact ⟨hpp.1, hpp.2.1, hpp.2.2,
                    nodup_keys_aset hri.2.2.2 _⟩
              next hhost =>
                exact h.setRoomInv (hri.setMemberArch hm rfl rfl rfl rfl)
            next hrac =>
            next hrac =>
              split
              next hhost =>
                split
                next hpl => exact h.dropRoomInv
                next a b hpl =>
                  refine h.setRoomInv ?_
                  have hpp := promote_after_erase hri hhost hpl
                  exact ⟨hpp.1, hpp.2.1, hpp.2.2, hri.2.2.2⟩
              next hhost =>
                refine h.setRoomInv ?_
                obtain ⟨h1, h2, h3, h4⟩ := hri
                refine ⟨nodup_keys_aerase h1, ?_, ?_, h4⟩
                · intro q hq hq2
                  exact h2 q (mem_aerase hq) hq2
                · intro hh hhh
                  have h5 := h3 hh hhh
                  refine headKey_aerase_of_ne h5 ?_
                  intro hcon
                  exact hhost (hcon ▸ hhh)
  | createRoom sid rid rn now =>
    simp only [applyOp, hCreateRoom]
    split
    next hp =>
      exfalso
      simp only [okOp, amem, hp] at hok
      simp at hok
    next p hp =>
      simp only [amodify_aset_self]
      refine h.setRoomInv ?_
      refine ⟨by simp [aset], ?_, ?_, by simp⟩
      · intro q hq hq2
        simp only [aset] at hq
        rcases List.mem_singleton.mp hq with rfl
        rfl
      · intro hh hhh
        obtain rfl : sid = hh := by injection hhh
        simp [aset, headKey]
  | joinRoom sid rid =>
    simp only [applyOp, hJoinRoom]
    split
    · exact h
    next room hroom =>
      split
      next hfull => exact h
      next hfull =>
        split
        next hrac => exact h
        next hrac =>
          split
          · exact h
          next p hp =>
            refine h.setRoomInv ?_
            have hri : HRoomInv room := h _ (alookup_mem hroom)
            obtain ⟨h1, h2, h3, h4⟩ := hri
            refine ⟨nodup_keys_aset h1 _, ?_, ?_, h4⟩
            · intro q hq hq2
              rcases mem_aset hq with rfl | hq'
              · simp at hq2
              · exact h2 q hq' hq2
            · intro hh hhh
              dsimp only at hhh ⊢
              have h5 := h3 hh hhh
              have hne : room.players ≠ [] := by
                intro hnil
                rw [hnil] at h5
                simp [headKey] at h5
              rw [headKey_aset_of_ne_nil hne]
              exact h5
  | leaveRoom sid =>
    simp only [applyOp, hLeaveRoom]
    split
    · exact h
    next p hp =>
      split
      · exact h
      next rid hrid =>
        split
        · exact h
        next room hroom =>
          split
          · exact h
          next m hm =>
            have hri : HRoomInv room := h _ (alookup_mem hroom)
            split
            next hhost =>
              split
              next hpl => exact h.dropRoomInv
              next a b hpl =>
                refine h.setRoomInv ?_
                have hpp := promote_after_erase hri hhost hpl
                exact ⟨hpp.1, hpp.2.1, hpp.2.2, hri.2.2.2⟩
            next hhost =>
              refine h.setRoomInv ?_
              obtain ⟨h1, h2, h3, h4⟩ := hri
              refine ⟨nodup_keys_aerase h1, ?_, ?_, h4⟩
              · intro q hq hq2
                exact h2 q (mem_aerase hq) hq2
              · intro hh hhh
                have h5 := h3 hh hhh
                refine headKey_aerase_of_ne h5 ?_
                intro hcon
                exact hhost (hcon ▸ hhh)
  | selectCar sid cn ci now =>
    simp only [applyOp, hSelectCar]
    split
    · exact h
    next p hp =>
      split
      · exact h
      next rid hrid =>
        split
        · exact h
        next room hroom =>
          split
          · exact h
          next m hm =>
            exact h.setRoomInv ((h _ (alookup_mem hroom)).setMember hm rfl rfl rfl rfl)
  | playerReady sid b now =>
    simp only [applyOp, hPlayerReady]
    split
    · exact h
    next p hp =>
      split
      · exact h
      next rid hrid =>
        split
        · exact h
        next room hroom =>
          split
          · exact h
          next m hm =>
            exact h.setRoomInv ((h _ (alookup_mem hroom)).setMember hm rfl rfl rfl rfl)
  | chatMessage sid msg now =>
    simp only [applyOp, hChat]
    split
    · exact h
    next p hp =>
      split
      · exact h
      next rid hrid =>
        split
        · exact h
        next room hroom =>
          split
          · exact h
          next m hm =>
            exact h.setRoomInv ((h _ (alookup_mem hroom)).core rfl rfl rfl)
  | startRace sid =>
    simp only [applyOp, hStartRace]
    split
    · exact h
    next p hp =>
      split
      · exact h
      next rid hrid =>
        split
        · exact h
        next room hroom =>
          split
          next hcnt => exact h
          next hcnt =>
            have hpro : HInv (hStartRaceProceed st sid rid room).1.rooms := by
              simp only [hStartRaceProceed]
              split
              · exact h.setRoomInv ((h _ (alookup_mem hroom)).core rfl rfl rfl)
              · exact h
            split
            next hhost => exact hpro
            next hhost =>
              split
              · exact h
              next m hm =>
                split
                next hr => exact hpro
                next hr => exact h
  | startRaceCountdown rid =>
    simp only [applyOp, hStartRaceCountdown]
    split
    · exact h
    next room hroom => exact h
  | startRaceGo rid starter now =>
    simp only [applyOp, hStartRaceGo]
    split
    · exact h
    next room hroom =>
      have hcore : HRoomInv { room with race_start_time := some now } :=
        (h _ (alookup_mem hroom)).core rfl rfl rfl
      split
      next hpl => exact h.setRoomInv hcore
      next a b hpl =>
        split
        · exact h.setRoomInv hcore
        next q hq => exact h.setRoomInv hcore
  | playerUpdate sid pos spd now =>
    simp only [applyOp, hPlayerUpdate]
    split
    · exact h
    next p hp =>
      split
      · exact h
      next rid hrid =>
        split
        · exact h
        next room hroom =>
          split
          next hrac =>
            split
            · exact h
            next m hm =>
              split
              · exact h
              next position hpos =>
                exact h.setRoomInv
                  ((h _ (alookup_mem hroom)).setMember hm rfl rfl rfl rfl)
          next hrac => exact h
  | joinRace sid rid pn car cn ih now =>
    have hfresh : amem st.rooms rid = false := by
      simp only [okOp] at hok
      simpa using hok
    simp only [applyOp, hJoinRace, hfresh, Bool.false_eq_true, if_false,
      amodify_aset_self]
    split
    next hihost =>
      simp only [amodify_aset_self]
      refine h.setRoomInv ?_
      refine ⟨by simp [aset], ?_, ?_, by simp⟩
      · intro q hq hq2
        simp only [aset] at hq
        rcases List.mem_singleton.mp hq with rfl
        simp [hihost]
      · intro hh hhh
        simp only [hihost, if_true, Option.some.injEq] at hhh
        subst hhh
        simp [aset, headKey]
    next hihost =>
      refine h.setRoomInv ?_
      have hfalse : ih = false := by
        revert hihost
        cases ih <;> simp
      refine ⟨by simp [aset], ?_, ?_, by simp⟩
      · intro q hq hq2
        simp only [aset] at hq
        rcases List.mem_singleton.mp hq with rfl
        rw [show (joinRaceMember st sid pn car cn ih).is_host = ih
          from rfl, hfalse] at hq2
        exact absurd hq2 (by simp)
      · intro hh hhh
        simp [hfalse] at hhh
  | joinRaceCountdown sid =>
    simpa [applyOp, hJoinRaceCountdown] using h
  | joinRaceGo sid rid =>
    simp only [applyOp, hJoinRaceGo]
    split
    · exact h
    next r hr => exact h
  | playerReadyToRace sid =>
    simp only [applyOp, hPlayerReadyToRace]
    split
    · exact h
    next p hp =>
      split
      · exact h
      next rid hrid =>
        split
        · exact h
        next room hroom =>
          split
          · exact h
          next m hm =>
            exact h.setRoomInv ((h _ (alookup_mem hroom)).setMember hm rfl rfl rfl rfl)
  | playerFinish sid ft now =>
    simp only [applyOp, hPlayerFinish]
    split
    · exact h
    next p hp =>
      split
      · exact h
      next rid hrid =>
        split
        · exact h
        next room hroom =>
          split
          next hrac =>
            split
            · exact h
            next m hm =>
              have hinv1 : HRoomInv { room with
                  players := aset room.players sid
                    { m with
                      finished := true,
                      finish_time := some
                        (validateFinishTime room.race_start_time now ft) },
                  last_activity := some now } :=
                (h _ (alookup_mem hroom)).setMember hm rfl rfl rfl rfl
              split
              next hall =>
                refine h.setRoomInv ?_
                exact hinv1.mapMembers
                  (fun mm => { mm with finished := false, finish_time := none })
                  (fun mm => rfl) rfl rfl rfl
              next hall => exact h.setRoomInv hinv1
          next hrac => exact h
  | sweep now =>
    simp only [applyOp, sweepCycle]
    split
    next herr => exact hinv_sweepRooms now _ h
    next herr =>
      intro q hq
      exact hinv_sweepRooms now _ h q (mem_foldl_aerase _ _ hq)

theorem plb_run : ∀ (ops : List Op) (st : ServerState),
    PlBounded st.rooms → okTrace st ops = true →
    PlBounded (runOps st ops).rooms := by
  intro ops
  induction ops with
  | nil =>
    intro st h hok
    simpa [runOps] using h
  | cons op rest ih =>
    intro st h hok
    rw [show okTrace st (op :: rest) =
      (okOp st op && okTrace (applyOp st op).1 rest) from rfl,
      Bool.and_eq_true] at hok
    exact ih _ (plb_step st op h hok.1) hok.2

theorem hinv_run : ∀ (ops : List Op) (st : ServerState),
    HInv st.rooms → okTrace st ops = true →
    HInv (runOps st ops).rooms := by
  intro ops
  induction ops with
  | nil =>
    intro st h hok
    simpa [runOps] using h
  | cons op rest ih =>
    intro st h hok
    rw [show okTrace st (op :: rest) =
      (okOp st op && okTrace (applyOp st op).1 rest) from rfl,
      Bool.and_eq_true] at hok
    exact ih _ (hinv_step st op h hok.1) hok.2

theorem alookup_amodify_self {α β : Type} [DecidableEq α] (f : β → β) :
    ∀ (l : List (α × β)) (k : α),
    alookup (amodify f l k) k = (alookup l k).map f := by
  intro l
  induction l with
  | nil =>
    intro k
    simp [amodify, alookup]
  | cons hd t ih =>
    intro k
    obtain ⟨k0, v0⟩ := hd
    by_cases hk : k0 = k
    · simp [amodify, alookup, hk]
    · simp [amodify, alookup, hk, ih]

theorem mem_aset_of_ne {α β : Type} [DecidableEq α] :
    ∀ {l : List (α × β)} {q : α × β} (k : α) (v : β),
    q ∈ l → q.1 ≠ k → q ∈ aset l k v := by
  intro l
  induction l with
  | nil =>
    intro q k v hq hne
    simp at hq
  | cons hd t ih =>
    intro q k v hq hne
    obtain ⟨k0, v0⟩ := hd
    by_cases hk : k0 = k
    · rw [show aset ((k0, v0) :: t) k v = (k, v) :: t by simp [aset, hk]]
      rcases List.mem_cons.mp hq with rfl | hq'
      · exact absurd hk hne
      · exact List.mem_cons_of_mem _ hq'
    · rw [show aset ((k0, v0) :: t) k v = (k0, v0) :: aset t k v by
        simp [aset, hk]]
      rcases List.mem_cons.mp hq with rfl | hq'
      · simp
      · exact List.mem_cons_of_mem _ (ih _ _ hq' hne)

/-- C1: on every trace of operations whose join_race ids are fresh, every
registered room keeps at most two members; and join_room answers Room not
found for an absent id, Room is full at two members, Race already in
progress for a racing room, and otherwise adds the caller as a non host
member and notifies each existing member. -/
theorem C1_membership_bound_and_join_room :
    (∀ ops : List Op, okTrace initState ops = true →
      ∀ q ∈ (runOps initState ops).rooms, q.2.players.length ≤ 2) ∧
    (∀ (st : ServerState) (sid : Sid) (rid : RoomId) (p : PInfo),
      PlBounded st.rooms →
      alookup st.players sid = some p →
      (alookup st.rooms rid = none →
        hJoinRoom st sid rid = (st, [Ev.error sid "Room not found"])) ∧
      (∀ room : Room, alookup st.rooms rid = some room →
        (room.players.length = 2 →
          hJoinRoom st sid rid = (st, [Ev.error sid "Room is full"])) ∧
        (room.players.length < 2 → room.status = Status.racing →
          hJoinRoom st sid rid =
            (st, [Ev.error sid "Race already in progress"])) ∧
        (room.players.length < 2 → room.status ≠ Status.racing →
          ∃ room' : Room,
            alookup (hJoinRoom st sid rid).1.rooms rid = some room' ∧
            alookup room'.players sid = some { name := p.pname } ∧
            ({ name := p.pname } : Member).is_host = false ∧
            room'.players.length ≤ 2 ∧
            ∀ q ∈ room.players, q.1 ≠ sid →
              Ev.playerJoined q.1 sid ∈ (hJoinRoom st sid rid).2))) := by
  constructor
  · intro ops hok
    exact plb_run ops initState (by simp [initState, PlBounded]) hok
  · intro st sid rid p hb hp
    constructor
    · intro hnone
      simp [hJoinRoom, hnone]
    · intro room hroom
      refine ⟨?_, ?_, ?_⟩
      · intro h2
        simp [hJoinRoom, hroom, h2]
      · intro hlt hrac
        have hge : ¬ room.players.length ≥ 2 := by omega
        simp [hJoinRoom, hroom, hge, hrac]
      · intro hlt hrac
        have hge : ¬ room.players.length ≥ 2 := by omega
        simp only [hJoinRoom, hroom, if_neg hge, if_neg hrac, hp]
        refine ⟨_, alookup_aset_self _ _ _, alookup_aset_self _ _ _,
          trivial, ?_, ?_⟩
        · show (aset room.players sid
            ({ name := p.pname } : Member)).length ≤ 2
          have h6 := length_aset_le room.players sid
            ({ name := p.pname } : Member)
          omega
        · intro q hq hqne
          refine List.mem_cons_of_mem _ ?_
          refine List.mem_map.mpr ⟨q, ?_, rfl⟩
          refine List.mem_filter.mpr ⟨mem_aset_of_ne sid _ hq hqne, ?_⟩
          simp [hqne]

/-- C1 witness: a concrete fresh trace keeps the bound, and a join_room
against an absent id on a concrete one room state answers Room not found. -/
theorem C1_membership_bound_and_join_room_witness :
    (∀ q ∈ (runOps initState
      [Op.connect "a" (some "alice"), Op.createRoom "a" "r1" none 0,
       Op.connect "b" (some "bob"), Op.joinRoom "b" "r1"]).rooms,
      q.2.players.length ≤ 2) ∧
    hJoinRoom (runOps initState
      [Op.connect "a" (some "alice"), Op.createRoom "a" "r1" none 0]) "a"
      "missing" =
      (runOps initState
        [Op.connect "a" (some "alice"), Op.createRoom "a" "r1" none 0],
       [Ev.error "a" "Room not found"]) := by
  constructor
  · exact C1_membership_bound_and_join_room.1 _ (by decide)
  · exact ((C1_membership_bound_and_join_room.2 _ "a" "missing"
      ⟨"alice", some "r1"⟩
      (plb_run _ initState (by simp [initState, PlBounded]) (by decide))
      (by decide)).1 (by decide))

/-- C1 counterexample: the claim as stated quantifies over all operation
sequences; a join_race whose generated id collides with an existing race
room joins that room with no capacity check, reaching three members. -/
theorem C1_membership_bound_counterexample :
    ∃ q ∈ (runOps initState
      [Op.joinRace "B" "race_a" (some "B") none none false 0,
       Op.connect "C" (some "C"),
       Op.joinRoom "C" "race_a",
       Op.joinRace "E" "race_a" (some "E") none none false 1]).rooms,
      q.2.players.length = 3 := by decide

/-- C2: on every trace of operations whose join_race ids are fresh, every
registered room has at most one member flagged is_host, and a flagged
member carries exactly the registered host_sid; when the host leaves via
leave_room the first remaining member becomes the flagged host and is
notified, and likewise on disconnect, where in a racing room nothing is
removed and the first entry of the unchanged membership is promoted. -/
theorem C2_host_uniqueness_and_promotion :
    (∀ ops : List Op, okTrace initState ops = true →
      ∀ q ∈ (runOps initState ops).rooms,
        (∀ q1 ∈ q.2.players, ∀ q2 ∈ q.2.players,
          q1.2.is_host = true → q2.2.is_host = true → q1 = q2) ∧
        (∀ q1 ∈ q.2.players, q1.2.is_host = true →
          q.2.host_sid = some q1.1)) ∧
    (∀ (st : ServerState) (sid : Sid) (p : PInfo) (rid : RoomId)
      (room : Room) (m : Member) (a : Sid × Member)
      (b : List (Sid × Member)),
      alookup st.players sid = some p → p.room_id = some rid →
      alookup st.rooms rid = some room →
      alookup room.players sid = some m →
      room.host_sid = some sid →
      aerase room.players sid = a :: b →
      ∃ room' : Room,
        alookup (hLeaveRoom st sid).1.rooms rid = some room' ∧
        room'.host_sid = some a.1 ∧
        headKey room'.players = some a.1 ∧
        (∃ m1 : Member, alookup room'.players a.1 = some m1 ∧
          m1.is_host = true) ∧
        Ev.hostTransferred a.1 ∈ (hLeaveRoom st sid).2) ∧
    (∀ (st : ServerState) (sid : Sid) (now : ℚ) (p : PInfo) (rid : RoomId)
      (room : Room) (m : Member) (a : Sid × Member)
      (b : List (Sid × Member)),
      alookup st.players sid = some p → p.room_id = some rid →
      alookup st.rooms rid = some room →
      alookup room.players sid = some m →
      room.host_sid = some sid →
      room.status ≠ Status.racing →
      aerase room.players sid = a :: b →
      ∃ room' : Room,
        alookup (hDisconnect st sid now).1.rooms rid = some room' ∧
        room'.host_sid = some a.1 ∧
        headKey room'.players = some a.1 ∧
        (∃ m1 : Member, alookup room'.players a.1 = some m1 ∧
          m1.is_host = true) ∧
        Ev.hostTransferred a.1 ∈ (hDisconnect st sid now).2) ∧
    (∀ (st : ServerState) (sid : Sid) (now : ℚ) (p : PInfo) (rid : RoomId)
      (room : Room) (m : Member),
      alookup st.players sid = some p → p.room_id = some rid →
      alookup st.rooms rid = some room →
      alookup room.players sid = some m →
      room.host_sid = some sid →
      room.status = Status.racing →
      ∃ (room' : Room) (hh : Sid),
        alookup (hDisconnect st sid now).1.rooms rid = some room' ∧
        room'.host_sid = some hh ∧
        headKey room'.players = some hh ∧
        (∃ m1 : Member, alookup room'.players hh = some m1 ∧
          m1.is_host = true) ∧
        Ev.hostTransferred hh ∈ (hDisconnect st sid now).2) := by
  refine ⟨?_, ?_, ?_, ?_⟩
  · intro ops hok q hq
    have hinv := hinv_run ops initState (by simp [initState, HInv]) hok
    obtain ⟨h1, h2, h3, h4⟩ := hinv q hq
    constructor
    · intro q1 hq1 q2 hq2 hh1 hh2
      have e1 := h2 q1 hq1 hh1
      have e2 := h2 q2 hq2 hh2
      rw [e1] at e2
      have hk := Option.some.inj e2
      exact entry_unique_of_nodup_keys h1 hq1 hq2 hk
    · exact h2
  · intro st sid p rid room m a b hp hrid hroom hm hhost hpl
    obtain ⟨ka, va⟩ := a
    simp only [hLeaveRoom, hp, hrid, hroom, hm, if_pos hhost, hpl]
    have hred : promoteHead ((ka, va) :: b) =
        (some ka, amodify (fun mm => { mm with is_host := true })
          ((ka, va) :: b) ka, [Ev.hostTransferred ka]) := rfl
    rw [hred]
    refine ⟨_, alookup_aset_self _ _ _, rfl, ?_, ?_, ?_⟩
    · show headKey (amodify (fun mm => { mm with is_host := true })
        ((ka, va) :: b) ka) = some ka
      rw [headKey_amodify]
      rfl
    · refine ⟨{ va with is_host := true }, ?_, rfl⟩
      show alookup (amodify (fun mm => { mm with is_host := true })
        ((ka, va) :: b) ka) ka = some { va with is_host := true }
      simp [amodify, alookup]
    · simp
  · intro st sid now p rid room m a b hp hrid hroom hm hhost hrac hpl
    obtain ⟨ka, va⟩ := a
    simp only [hDisconnect, hp, hrid, hroom, hm, if_neg hrac,
      if_pos hhost, hpl]
    have hred : promoteHead ((ka, va) :: b) =
        (some ka, amodify (fun mm => { mm with is_host := true })
          ((ka, va) :: b) ka, [Ev.hostTransferred ka]) := rfl
    rw [hred]
    refine ⟨_, alookup_aset_self _ _ _, rfl, ?_, ?_, ?_⟩
    · show headKey (amodify (fun mm => { mm with is_host := true })
        ((ka, va) :: b) ka) = some ka
      rw [headKey_amodify]
      rfl
    · refine ⟨{ va with is_host := true }, ?_, rfl⟩
      show alookup (amodify (fun mm => { mm with is_host := true })
        ((ka, va) :: b) ka) ka = some { va with is_host := true }
      simp [amodify, alookup]
    · simp
  · intro st sid now p rid room m hp hrid hroom hm hhost hrac
    simp only [hDisconnect, hp, hrid, hroom, hm, if_pos hrac, if_pos hhost]
    rcases hpl : aset room.players sid
        { m with disconnected := true, disconnect_time := some now } with
      hnil | ⟨⟨ka, va⟩, b⟩
    · exact absurd hpl (aset_ne_nil _ _ _)
    · dsimp only
      have hred : promoteHead (((ka, va)) :: b) =
          (some ka, amodify (fun mm => { mm with is_host := true })
            ((ka, va) :: b) ka, [Ev.hostTransferred ka]) := rfl
      rw [hred]
      refine ⟨_, ka, alookup_aset_self _ _ _, rfl, ?_, ?_, ?_⟩
      · show headKey (amodify (fun mm => { mm with is_host := true })
          ((ka, va) :: b) ka) = some ka
        rw [headKey_amodify]
        rfl
      · refine ⟨{ va with is_host := true }, ?_, rfl⟩
        show alookup (amodify (fun mm => { mm with is_host := true })
          ((ka, va) :: b) ka) ka = some { va with is_host := true }
        simp [amodify, alookup]
      · simp

/-- C2 witness: on a concrete trace in which the host of a two member room
leaves, the remaining member is flagged host and equals host_sid, and the
promotion facts hold at the concrete departure. -/
theorem C2_host_uniqueness_and_promotion_witness :
    (∀ q ∈ (runOps initState
      [Op.connect "a" (some "alice"), Op.createRoom "a" "r1" none 0,
       Op.connect "b" (some "bob"), Op.joinRoom "b" "r1",
       Op.leaveRoom "a"]).rooms,
      (∀ q1 ∈ q.2.players, ∀ q2 ∈ q.2.players,
        q1.2.is_host = true → q2.2.is_host = true → q1 = q2) ∧
      (∀ q1 ∈ q.2.players, q1.2.is_host = true →
        q.2.host_sid = some q1.1)) ∧
    (∃ room' : Room,
      alookup (hLeaveRoom (runOps initState
        [Op.connect "a" (some "alice"), Op.createRoom "a" "r1" none 0,
         Op.connect "b" (some "bob"), Op.joinRoom "b" "r1"]) "a").1.rooms
        "r1" = some room' ∧
      room'.host_sid = some "b" ∧
      headKey room'.players = some "b" ∧
      (∃ m1 : Member, alookup room'.players "b" = some m1 ∧
        m1.is_host = true) ∧
      Ev.hostTransferred "b" ∈ (hLeaveRoom (runOps initState
        [Op.connect "a" (some "alice"), Op.createRoom "a" "r1" none 0,
         Op.connect "b" (some "bob"), Op.joinRoom "b" "r1"]) "a").2) := by
  constructor
  · exact C2_host_uniqueness_and_promotion.1 _ (by decide)
  · exact C2_host_uniqueness_and_promotion.2.1 _ "a" ⟨"alice", some "r1"⟩
      "r1"
      { rname := "Room 1", host_sid := some "a",
        players := [("a", { name := "alice", is_host := true }),
          ("b", { name := "bob" })],
        status := Status.waiting, created_at := 0, map := "map1" }
      { name := "alice", is_host := true }
      ("b", { name := "bob" }) [] (by decide) (by decide)
      (by decide) (by decide) (by decide) (by decide)

/-- C2 counterexample: a join_race with is_host false reaches a room with
one member and no flagged host at all, refuting the claimed exactly one
host for every nonempty reachable room (the trace satisfies the dispatch
conditions, including id freshness). -/
theorem C2_host_uniqueness_counterexample :
    okTrace initState
      [Op.joinRace "B" "race_a" (some "B") none none false 0] = true ∧
    ∃ q ∈ (runOps initState
      [Op.joinRace "B" "race_a" (some "B") none none false 0]).rooms,
      q.2.players ≠ [] ∧ ∀ qq ∈ q.2.players, qq.2.is_host = false := by
  decide

/-- C3: for a start_race request by a member of a waiting room, the gates
fire in source order with only an error to the requester and an unchanged
state (so the status stays waiting): wrong player count unless exactly two
members, not ready for a non host unready requester, not all ready when
another member is unready; otherwise the status becomes racing and the
start announcement goes to both members, with car selection never
consulted by any gate. -/
theorem C3_start_race_gates :
    ∀ (st : ServerState) (sid : Sid) (p : PInfo) (rid : RoomId)
      (room : Room) (m : Member),
      alookup st.players sid = some p → p.room_id = some rid →
      alookup st.rooms rid = some room →
      room.status = Status.waiting →
      alookup room.players sid = some m →
      (room.players.length ≠ 2 →
        hStartRace st sid =
          (st, [Ev.error sid "Need exactly 2 players for a 1v1 race"])) ∧
      (room.players.length = 2 → room.host_sid ≠ some sid →
        m.ready = false →
        hStartRace st sid =
          (st, [Ev.error sid "You must be ready to start the race"])) ∧
      (room.players.length = 2 →
        (room.host_sid = some sid ∨ m.ready = true) →
        allOthersReady room.players sid = false →
        hStartRace st sid =
          (st, [Ev.error sid "All players must be ready to start the race"])) ∧
      (room.players.length = 2 →
        (room.host_sid = some sid ∨ m.ready = true) →
        allOthersReady room.players sid = true →
        alookup (hStartRace st sid).1.rooms rid =
          some { room with status := Status.racing } ∧
        (hStartRace st sid).2 =
          room.players.map (fun q => Ev.raceStarting q.1 sid)) := by
  intro st sid p rid room m hp hrid hroom hwait hm
  refine ⟨?_, ?_, ?_, ?_⟩
  · intro hcnt
    simp [hStartRace, hp, hrid, hroom, hcnt]
  · intro hcnt hhost hready
    have hcnt' : ¬ room.players.length ≠ 2 := by omega
    simp [hStartRace, hp, hrid, hroom, hcnt', hhost, hm, hready]
  · intro hcnt hgate hothers
    have hcnt' : ¬ room.players.length ≠ 2 := by omega
    rcases hgate with hhost | hready
    · simp [hStartRace, hp, hrid, hroom, hcnt', hhost,
        hStartRaceProceed, hothers]
    · by_cases hhost : room.host_sid = some sid
      · simp [hStartRace, hp, hrid, hroom, hcnt', hhost,
          hStartRaceProceed, hothers]
      · simp [hStartRace, hp, hrid, hroom, hcnt', hhost, hm, hready,
          hStartRaceProceed, hothers]
  · intro hcnt hgate hothers
    have hcnt' : ¬ room.players.length ≠ 2 := by omega
    have hpro :
        alookup (hStartRaceProceed st sid rid room).1.rooms rid =
          some { room with status := Status.racing } ∧
        (hStartRaceProceed st sid rid room).2 =
          room.players.map (fun q => Ev.raceStarting q.1 sid) := by
      constructor
      · simp only [hStartRaceProceed, hothers, if_true]
        exact alookup_aset_self _ _ _
      · simp [hStartRaceProceed, hothers]
    rcases hgate with hhost | hready
    · simpa [hStartRace, hp, hrid, hroom, hcnt', hhost] using hpro
    · by_cases hhost : room.host_sid = some sid
      · simpa [hStartRace, hp, hrid, hroom, hcnt', hhost] using hpro
      · simpa [hStartRace, hp, hrid, hroom, hcnt', hhost, hm, hready]
          using hpro

/-- C3 witness: a one member waiting room answers wrong player count with
the state unchanged. -/
theorem C3_start_race_gates_witness :
    hStartRace (runOps initState
      [Op.connect "a" (some "alice"), Op.createRoom "a" "r1" none 0]) "a" =
      (runOps initState
        [Op.connect "a" (some "alice"), Op.createRoom "a" "r1" none 0],
       [Ev.error "a" "Need exactly 2 players for a 1v1 race"]) := by
  exact (C3_start_race_gates _ "a" ⟨"alice", some "r1"⟩ "r1"
    { rname := "Room 1", host_sid := some "a",
      players := [("a", { name := "alice", is_host := true })],
      status := Status.waiting, created_at := 0, map := "map1" }
    { name := "alice", is_host := true }
    (by decide) (by decide) (by decide) (by decide) (by decide)).1
    (by decide)

/-- C4: a position update from a member of a racing room coerces non
numeric inputs to 0, clamps position into -1000 to 10000 and speed into 0
to 500, clamps an implausible move against the stored baseline only when
the gap exceeds 0.1 with direction preserved, stores the final position
and the current time as the new baseline, refreshes room activity, and
relays exactly one update carrying the final values to every other member
and never to the sender. -/
theorem C4_player_update_pipeline :
    ∀ (st : ServerState) (sid : Sid) (p : PInfo) (rid : RoomId)
      (room : Room) (m : Member) (pos spd : Val) (now p0 s0 : ℚ),
      alookup st.players sid = some p → p.room_id = some rid →
      alookup st.rooms rid = some room →
      room.status = Status.racing →
      alookup room.players sid = some m →
      ((m.last_position = none ∧ m.last_update_time = none) ∨
        (∃ lp lt : ℚ, m.last_position = some lp ∧
          m.last_update_time = some lt)) →
      p0 = clampQ (-1000) 10000 (coerceNum 0 pos) →
      s0 = clampQ 0 500 (coerceNum 0 spd) →
      ∃ (finalPos : ℚ) (room' : Room) (m' : Member),
        alookup (hPlayerUpdate st sid pos spd now).1.rooms rid =
          some room' ∧
        alookup room'.players sid = some m' ∧
        m'.last_position = some finalPos ∧
        m'.last_update_time = some now ∧
        room'.last_activity = some now ∧
        (hPlayerUpdate st sid pos spd now).2 =
          (room'.players.filter (fun q => q.1 ≠ sid)).map
            (fun q => Ev.playerUpdateEv q.1 sid finalPos s0) ∧
        (∀ e ∈ (hPlayerUpdate st sid pos spd now).2, e.dst ≠ sid) ∧
        (m.last_position = none → finalPos = p0) ∧
        (∀ lp lt : ℚ, m.last_position = some lp →
          m.last_update_time = some lt →
          finalPos =
            if |p0 - lp| > 300 * (now - lt) ∧ now - lt > 1 / 10 then
              (if p0 > lp then lp + 300 * (now - lt)
               else lp - 300 * (now - lt))
            else p0) := by
  intro st sid p rid room m pos spd now p0 s0 hp hrid hroom hrac hm hsync
    hp0 hs0
  subst hp0
  subst hs0
  have hdst : ∀ (pl : List (Sid × Member)) (fp : ℚ),
      ∀ e ∈ (pl.filter (fun q => q.1 ≠ sid)).map
        (fun q => Ev.playerUpdateEv q.1 sid fp
          (clampQ 0 500 (coerceNum 0 spd))), e.dst ≠ sid := by
    intro pl fp e he
    rcases List.mem_map.mp he with ⟨q, hq, rfl⟩
    have hne := (List.mem_filter.mp hq).2
    simpa [Ev.dst] using hne
  rcases hsync with ⟨hlp, hlt⟩ | ⟨lp, lt, hlp, hlt⟩
  · have hvp : validatePosition m now pos =
        some (clampQ (-1000) 10000 (coerceNum 0 pos)) := by
      unfold validatePosition
      rw [hlp]
    simp only [hPlayerUpdate, hp, hrid, hroom, if_pos hrac, hm, hvp]
    refine ⟨clampQ (-1000) 10000 (coerceNum 0 pos), _, _,
      alookup_aset_self _ _ _, alookup_aset_self _ _ _,
      rfl, rfl, rfl, rfl, ?_, fun _ => rfl, ?_⟩
    · exact hdst _ _
    · intro lp lt hlp' hlt'
      rw [hlp] at hlp'
      exact absurd hlp' (by simp)
  · by_cases hcond : |clampQ (-1000) 10000 (coerceNum 0 pos) - lp| >
        300 * (now - lt) ∧ now - lt > 1 / 10
    · have hvp : validatePosition m now pos =
          some (if clampQ (-1000) 10000 (coerceNum 0 pos) > lp then
            lp + 300 * (now - lt)
           else lp - 300 * (now - lt)) := by
        unfold validatePosition
        rw [hlp, hlt]
        dsimp only
        rw [if_pos hcond]
      simp only [hPlayerUpdate, hp, hrid, hroom, if_pos hrac, hm, hvp]
      refine ⟨_, _, _, alookup_aset_self _ _ _, alookup_aset_self _ _ _,
        rfl, rfl, rfl, rfl, ?_, ?_, ?_⟩
      · exact hdst _ _
      · intro hnone
        rw [hlp] at hnone
        exact absurd hnone (by simp)
      · intro lp' lt' hlp' hlt'
        rw [hlp] at hlp'
        rw [hlt] at hlt'
        obtain rfl : lp = lp' := by injection hlp'
        obtain rfl : lt = lt' := by injection hlt'
        rw [if_pos hcond]
    · have hvp : validatePosition m now pos =
          some (clampQ (-1000) 10000 (coerceNum 0 pos)) := by
        unfold validatePosition
        rw [hlp, hlt]
        dsimp only
        rw [if_neg hcond]
      simp only [hPlayerUpdate, hp, hrid, hroom, if_pos hrac, hm, hvp]
      refine ⟨_, _, _, alookup_aset_self _ _ _, alookup_aset_self _ _ _,
        rfl, rfl, rfl, rfl, ?_, fun _ => rfl, ?_⟩
      · exact hdst _ _
      · intro lp' lt' hlp' hlt'
        rw [hlp] at hlp'
        rw [hlt] at hlt'
        obtain rfl : lp = lp' := by injection hlp'
        obtain rfl : lt = lt' := by injection hlt'
        rw [if_neg hcond]

/-- C4 witness: a concrete in range update from a member with no baseline
is relayed unchanged to the other member only. -/
theorem C4_player_update_pipeline_witness :
    ∃ (finalPos : ℚ) (room' : Room) (m' : Member),
      alookup (hPlayerUpdate (runOps initState
        [Op.connect "a" (some "alice"), Op.createRoom "a" "r1" none 0,
         Op.connect "b" (some "bob"), Op.joinRoom "b" "r1",
         Op.playerReady "b" true 1, Op.startRace "a"]) "a"
        (Val.num 15000) (Val.num (-5)) 2).1.rooms "r1" = some room' ∧
      alookup room'.players "a" = some m' ∧
      m'.last_position = some finalPos ∧
      m'.last_update_time = some 2 ∧
      room'.last_activity = some 2 ∧
      (hPlayerUpdate (runOps initState
        [Op.connect "a" (some "alice"), Op.createRoom "a" "r1" none 0,
         Op.connect "b" (some "bob"), Op.joinRoom "b" "r1",
         Op.playerReady "b" true 1, Op.startRace "a"]) "a"
        (Val.num 15000) (Val.num (-5)) 2).2 =
        (room'.players.filter (fun q => q.1 ≠ "a")).map
          (fun q => Ev.playerUpdateEv q.1 "a" finalPos 0) ∧
      (∀ e ∈ (hPlayerUpdate (runOps initState
        [Op.connect "a" (some "alice"), Op.createRoom "a" "r1" none 0,
         Op.connect "b" (some "bob"), Op.joinRoom "b" "r1",
         Op.playerReady "b" true 1, Op.startRace "a"]) "a"
        (Val.num 15000) (Val.num (-5)) 2).2, e.dst ≠ "a") ∧
      ((none : Option ℚ) = none → finalPos = 10000) := by
  obtain ⟨fp, room', m', h1, h2, h3, h4, h5, h6, h7, h8, h9⟩ :=
    C4_player_update_pipeline (runOps initState
      [Op.connect "a" (some "alice"), Op.createRoom "a" "r1" none 0,
       Op.connect "b" (some "bob"), Op.joinRoom "b" "r1",
       Op.playerReady "b" true 1, Op.startRace "a"]) "a"
      ⟨"alice", some "r1"⟩ "r1"
      { rname := "Room 1", host_sid := some "a",
        players := [("a", { name := "alice", is_host := true }),
          ("b", { name := "bob", ready := true })],
        status := Status.racing, created_at := 0, map := "map1",
        last_activity := some 1 }
      { name := "alice", is_host := true }
      (Val.num 15000) (Val.num (-5)) 2 10000 0
      (by decide) (by decide) (by decide) (by decide) (by decide)
      (Or.inl (by decide)) (by decide) (by decide)
  exact ⟨fp, room', m', h1, h2, h3, h4, h5, h6, h7, fun _ => h8 (by decide)⟩

/-- Concrete racing state for the small gap scenario of C5: member A holds
a validated baseline of position 0 taken at time 100, member B is the
relay target. -/
def c5A : Member :=
  { name := "A", is_host := true, last_position := some 0,
    last_update_time := some 100 }

def c5B : Member := { name := "B", ready := true }

def c5Room : Room :=
  { rname := "R", host_sid := some "A",
    players := [("A", c5A), ("B", c5B)],
    status := Status.racing, created_at := 0, map := "map1" }

def c5St : ServerState :=
  ⟨[("r", c5Room)], [("A", ⟨"A", some "r"⟩), ("B", ⟨"B", some "r"⟩)]⟩

/-- C5 counterexample: a jump of 5000 units reported 0.05 time units after
the baseline is relayed unchanged, not clamped to baseline plus 300 times
0.05, because the movement clamp only fires when the gap exceeds 0.1. -/
theorem C5_small_gap_counterexample :
    (hPlayerUpdate c5St "A" (Val.num 5000) (Val.num 0)
      (100 + 1 / 20)).2 = [Ev.playerUpdateEv "B" "A" 5000 0] ∧
    (5000 : ℚ) ≠ 0 + 300 * (1 / 20) := by
  constructor
  · norm_num [hPlayerUpdate, c5St, c5Room, c5A, c5B, alookup, aset,
      validatePosition, clampQ, coerceNum]
    decide
  · norm_num

/-- C5 amended: when the elapsed gap since the stored baseline does not
exceed 0.1 time units, the reported position bypasses the movement clamp
entirely and only the range clamp applies, whatever the jump size; the
movement clamp fires only for gaps above 0.1. -/
theorem C5_small_gap_passthrough :
    ∀ (st : ServerState) (sid : Sid) (p : PInfo) (rid : RoomId)
      (room : Room) (m : Member) (pos spd : Val) (now lp lt : ℚ),
      alookup st.players sid = some p → p.room_id = some rid →
      alookup st.rooms rid = some room →
      room.status = Status.racing →
      alookup room.players sid = some m →
      m.last_position = some lp → m.last_update_time = some lt →
      ¬ (now - lt > 1 / 10) →
      ∃ (room' : Room) (m' : Member),
        alookup (hPlayerUpdate st sid pos spd now).1.rooms rid =
          some room' ∧
        alookup room'.players sid = some m' ∧
        m'.last_position =
          some (clampQ (-1000) 10000 (coerceNum 0 pos)) ∧
        (hPlayerUpdate st sid pos spd now).2 =
          (room'.players.filter (fun q => q.1 ≠ sid)).map
            (fun q => Ev.playerUpdateEv q.1 sid
              (clampQ (-1000) 10000 (coerceNum 0 pos))
              (clampQ 0 500 (coerceNum 0 spd))) := by
  intro st sid p rid room m pos spd now lp lt hp hrid hroom hrac hm hlp hlt
    hgap
  have hvp : validatePosition m now pos =
      some (clampQ (-1000) 10000 (coerceNum 0 pos)) := by
    unfold validatePosition
    rw [hlp, hlt]
    dsimp only
    rw [if_neg (fun hc => hgap hc.2)]
  simp only [hPlayerUpdate, hp, hrid, hroom, if_pos hrac, hm, hvp]
  exact ⟨_, _, alookup_aset_self _ _ _, alookup_aset_self _ _ _, rfl, rfl⟩

/-- C5 amended witness: the concrete 5000 unit jump over a 0.05 gap passes
through the validator unchanged. -/
theorem C5_small_gap_passthrough_witness :
    ∃ (room' : Room) (m' : Member),
      alookup (hPlayerUpdate c5St "A" (Val.num 5000) (Val.num 0)
        (100 + 1 / 20)).1.rooms "r" = some room' ∧
      alookup room'.players "A" = some m' ∧
      m'.last_position = some (clampQ (-1000) 10000 (coerceNum 0
        (Val.num 5000))) ∧
      (hPlayerUpdate c5St "A" (Val.num 5000) (Val.num 0)
        (100 + 1 / 20)).2 =
        (room'.players.filter (fun q => q.1 ≠ "A")).map
          (fun q => Ev.playerUpdateEv q.1 "A"
            (clampQ (-1000) 10000 (coerceNum 0 (Val.num 5000)))
            (clampQ 0 500 (coerceNum 0 (Val.num 0)))) := by
  exact C5_small_gap_passthrough c5St "A" ⟨"A", some "r"⟩ "r" c5Room c5A
    (Val.num 5000) (Val.num 0) (100 + 1 / 20) 0 100
    (by decide) (by decide) (by decide) (by decide) (by decide)
    (by decide) (by decide) (by norm_num)

/-- Early finish floor: a numeric time under 10 reported while the race is
younger than 10 time units validates to exactly 30. -/
theorem vft_early (t0 now q : ℚ) (h1 : now - t0 < 10) (h2 : q < 10) :
    validateFinishTime (some t0) now (Val.num q) = 30 := by
  unfold validateFinishTime coerceNum
  dsimp only
  rw [if_pos ⟨h1, h2⟩]
  have hmax : max q 30 = 30 :=
    max_eq_right (le_of_lt (lt_of_lt_of_le h2 (by norm_num)))
  rw [hmax]
  unfold clampQ
  rw [min_eq_right (by norm_num : (30 : ℚ) ≤ 99999 / 100),
    max_eq_right (by norm_num : (10 : ℚ) ≤ 30)]

/-- Outside the early finish window the numeric time is only clamped. -/
theorem vft_plain (t0 now q : ℚ) (h : ¬ (now - t0 < 10 ∧ q < 10)) :
    validateFinishTime (some t0) now (Val.num q) =
      clampQ 10 (99999 / 100) q := by
  unfold validateFinishTime coerceNum
  dsimp only
  rw [if_neg h]

/-- C6: a player_finish from a member of a racing room broadcasts to every
member the validated time computed by the source pipeline: a non numeric
report becomes the 999.99 sentinel, a numeric report under 10 made while
the race is younger than 10 time units is floored to 30.0, and the result
is clamped into 10.0 to 999.99; in particular 2.0 reported 3 time units in
becomes 30.0 and 5000 becomes 999.99. -/
theorem C6_finish_time_validation :
    (∀ (st : ServerState) (sid : Sid) (p : PInfo) (rid : RoomId)
      (room : Room) (m : Member) (ft : Val) (now : ℚ),
      alookup st.players sid = some p → p.room_id = some rid →
      alookup st.rooms rid = some room →
      room.status = Status.racing →
      alookup room.players sid = some m →
      ∀ q ∈ room.players,
        Ev.playerFinished q.1 sid
          (validateFinishTime room.race_start_time now ft) ∈
          (hPlayerFinish st sid ft now).2) ∧
    (∀ (rs : Option ℚ) (now : ℚ),
      validateFinishTime rs now Val.other = 99999 / 100) ∧
    (∀ t0 now q : ℚ, now - t0 < 10 → q < 10 →
      validateFinishTime (some t0) now (Val.num q) = 30) ∧
    (∀ t0 now q : ℚ, ¬ (now - t0 < 10 ∧ q < 10) →
      validateFinishTime (some t0) now (Val.num q) =
        clampQ 10 (99999 / 100) q) ∧
    (∀ now q : ℚ, validateFinishTime none now (Val.num q) =
      clampQ 10 (99999 / 100) q) ∧
    (∀ t0 : ℚ, validateFinishTime (some t0) (t0 + 3) (Val.num 2) = 30) ∧
    (∀ (rs : Option ℚ) (now : ℚ),
      validateFinishTime rs now (Val.num 5000) = 99999 / 100) := by
  refine ⟨?_, ?_, ?_, ?_, ?_, ?_, ?_⟩
  · intro st sid p rid room m ft now hp hrid hroom hrac hm q hq
    set ftv := validateFinishTime room.race_start_time now ft with hftv
    have hmem : ∀ qq ∈ aset room.players sid
        { m with finished := true, finish_time := some ftv },
        Ev.playerFinished qq.1 sid ftv ∈
        (aset room.players sid
          { m with finished := true, finish_time := some ftv }).map
          (fun qq => Ev.playerFinished qq.1 sid ftv) := by
      intro qq hqq
      exact List.mem_map.mpr ⟨qq, hqq, rfl⟩
    have hget : ∃ qq ∈ aset room.players sid
        { m with finished := true, finish_time := some ftv },
        qq.1 = q.1 := by
      by_cases hqs : q.1 = sid
      · refine ⟨(sid, { m with finished := true, finish_time := some ftv }),
          alookup_mem (alookup_aset_self _ _ _), hqs.symm⟩
      · exact ⟨q, mem_aset_of_ne sid _ hq hqs, rfl⟩
    obtain ⟨qq, hqq, hqk⟩ := hget
    simp only [hPlayerFinish, hp, hrid, hroom, if_pos hrac, hm]
    split
    next hall =>
      refine List.mem_append.mpr (Or.inl ?_)
      rw [← hqk]
      exact hmem qq hqq
    next hall =>
      rw [← hqk]
      exact hmem qq hqq
  · intro rs now
    cases rs with
    | none =>
      unfold validateFinishTime coerceNum clampQ
      norm_num
    | some t0 =>
      unfold validateFinishTime coerceNum clampQ
      dsimp only
      rw [if_neg (by norm_num : ¬ (now - t0 < 10 ∧ (99999 : ℚ) / 100 < 10))]
      norm_num
  · exact fun t0 now q h1 h2 => vft_early t0 now q h1 h2
  · exact fun t0 now q h => vft_plain t0 now q h
  · intro now q
    unfold validateFinishTime coerceNum
    rfl
  · intro t0
    exact vft_early t0 (t0 + 3) 2 (by ring_nf; norm_num) (by norm_num)
  · intro rs now
    cases rs with
    | none =>
      unfold validateFinishTime coerceNum clampQ
      norm_num
    | some t0 =>
      rw [vft_plain t0 now 5000 (by norm_num)]
      unfold clampQ
      norm_num

/-- C6 witness: the early floor applied at race start time 0 and report
time 3 with a reported finish of 2 gives 30. -/
theorem C6_finish_time_validation_witness :
    validateFinishTime (some 0) (0 + 3) (Val.num 2) = 30 :=
  C6_finish_time_validation.2.2.2.2.2.1 0

theorem mem_aset_of_nodup {α β : Type} [DecidableEq α] :
    ∀ {l : List (α × β)} {k : α} {v : β} {q : α × β},
    (l.map Prod.fst).Nodup → q ∈ aset l k v →
    q = (k, v) ∨ (q ∈ l ∧ q.1 ≠ k) := by
  intro l
  induction l with
  | nil =>
    intro k v q hn h
    simp [aset] at h
    exact Or.inl h
  | cons hd t ih =>
    intro k v q hn h
    obtain ⟨k0, v0⟩ := hd
    simp only [List.map_cons, List.nodup_cons] at hn
    by_cases hk : k0 = k
    · subst hk
      rw [show aset ((k0, v0) :: t) k0 v = (k0, v) :: t by simp [aset],
        List.mem_cons] at h
      rcases h with rfl | h
      · exact Or.inl rfl
      · refine Or.inr ⟨List.mem_cons_of_mem _ h, ?_⟩
        intro hq
        exact hn.1 (hq ▸ List.mem_map.mpr ⟨q, h, rfl⟩)
    · rw [show aset ((k0, v0) :: t) k v = (k0, v0) :: aset t k v by
        simp [aset, hk], List.mem_cons] at h
      rcases h with rfl | h
      · exact Or.inr ⟨by simp, hk⟩
      · rcases ih hn.2 h with h' | ⟨h1, h2⟩
        · exact Or.inl h'
        · exact Or.inr ⟨List.mem_cons_of_mem _ h1, h2⟩

theorem insertByTime_perm (x : String × ℚ) :
    ∀ l : List (String × ℚ), List.Perm (insertByTime x l) (x :: l) := by
  intro l
  induction l with
  | nil => simp [insertByTime]
  | cons y t ih =>
    by_cases hc : x.2 ≤ y.2
    · rw [show insertByTime x (y :: t) = x :: y :: t by
        simp [insertByTime, hc]]
    · rw [show insertByTime x (y :: t) = y :: insertByTime x t by
        simp [insertByTime, hc]]
      exact List.Perm.trans (ih.cons y) (List.Perm.swap x y t)

theorem sortByTime_perm :
    ∀ l : List (String × ℚ), List.Perm (sortByTime l) l := by
  intro l
  induction l with
  | nil => simp [sortByTime]
  | cons x t ih =>
    exact List.Perm.trans (insertByTime_perm x (sortByTime t)) (ih.cons x)

theorem insertByTime_pairwise (x : String × ℚ) :
    ∀ {l : List (String × ℚ)},
    List.Pairwise (fun a b => a.2 ≤ b.2) l →
    List.Pairwise (fun a b => a.2 ≤ b.2) (insertByTime x l) := by
  intro l
  induction l with
  | nil =>
    intro h
    simp [insertByTime]
  | cons y t ih =>
    intro h
    rw [List.pairwise_cons] at h
    by_cases hc : x.2 ≤ y.2
    · rw [show insertByTime x (y :: t) = x :: y :: t by
        simp [insertByTime, hc]]
      rw [List.pairwise_cons]
      refine ⟨?_, List.pairwise_cons.mpr h⟩
      intro b hb
      rcases List.mem_cons.mp hb with rfl | hb'
      · exact hc
      · exact le_trans hc (h.1 b hb')
    · rw [show insertByTime x (y :: t) = y :: insertByTime x t by
        simp [insertByTime, hc]]
      rw [List.pairwise_cons]
      refine ⟨?_, ih h.2⟩
      intro b hb
      have hb' := (insertByTime_perm x t).mem_iff.mp hb
      rcases List.mem_cons.mp hb' with rfl | hb2
      · exact le_of_not_le hc
      · exact h.1 b hb2

theorem sortByTime_pairwise :
    ∀ l : List (String × ℚ),
    List.Pairwise (fun a b => a.2 ≤ b.2) (sortByTime l) := by
  intro l
  induction l with
  | nil => simp [sortByTime]
  | cons x t ih => exact insertByTime_pairwise x ih

/-- Concrete racing state for C7: B has already reported a finish of 50, A
has not; both members still hold telemetry validator state. The room is
racing with its start timestamp not yet recorded (reachable, since
start_race flips the status before its countdown waits record the
timestamp). -/
def c7A : Member :=
  { name := "A", is_host := true, last_position := some 3,
    last_update_time := some 5 }

def c7B : Member :=
  { name := "B", finished := true, finish_time := some 50,
    last_position := some 4, last_update_time := some 6 }

def c7Room : Room :=
  { rname := "R", host_sid := some "A",
    players := [("A", c7A), ("B", c7B)],
    status := Status.racing, created_at := 0, map := "map1" }

def c7St : ServerState :=
  ⟨[("r", c7Room)], [("A", ⟨"A", some "r"⟩), ("B", ⟨"B", some "r"⟩)]⟩

/-- C7 counterexample: B reported its 50 before A, yet in the tie the
broadcast results list A first, because the stable sort starts from
membership insertion order, not report order; and A's telemetry validator
state survives the reset while finished and finish_time are cleared. -/
theorem C7_results_counterexample :
    Ev.raceResults "A" [("A", 50), ("B", 50)] ∈
      (hPlayerFinish c7St "A" (Val.num 50) 100).2 ∧
    [("A", (50 : ℚ)), ("B", 50)] ≠ [("B", 50), ("A", 50)] ∧
    ∃ (room' : Room) (mA : Member),
      alookup (hPlayerFinish c7St "A" (Val.num 50) 100).1.rooms "r" =
        some room' ∧
      alookup room'.players "A" = some mA ∧
      mA.finished = false ∧ mA.finish_time = none ∧
      mA.last_position = some 3 ∧ mA.last_update_time = some 5 := by
  refine ⟨?_, by decide, ?_⟩
  · norm_num [hPlayerFinish, c7St, c7Room, c7A, c7B, alookup, aset,
      validateFinishTime, coerceNum, clampQ, sortByTime, insertByTime]
  · norm_num [hPlayerFinish, c7St, c7Room, c7A, c7B, alookup, aset,
      validateFinishTime, coerceNum, clampQ, sortByTime, insertByTime]

/-- C7 amended: when the last unfinished member of a racing room reports a
finish, the results list assembled in membership order is stably sorted
ascending by finish time (so ties keep membership insertion order, not
report order) and broadcast to every member, the status resets to waiting,
finished and finish_time are deleted from every member, while the
telemetry validator baseline of every member is retained; and with times
45.2 and 40.1 the 40.1 entry comes first. -/
theorem C7_results_and_reset :
    (∀ (st : ServerState) (sid : Sid) (p : PInfo) (rid : RoomId)
      (room : Room) (m : Member) (ft : Val) (now : ℚ)
      (pl1 : List (Sid × Member)),
      alookup st.players sid = some p → p.room_id = some rid →
      alookup st.rooms rid = some room →
      room.status = Status.racing →
      alookup room.players sid = some m →
      (room.players.map Prod.fst).Nodup →
      (∀ q ∈ room.players, q.1 ≠ sid → q.2.finished = true) →
      pl1 = aset room.players sid
        { m with
          finished := true,
          finish_time := some
            (validateFinishTime room.race_start_time now ft) } →
      ∃ room' : Room,
        alookup (hPlayerFinish st sid ft now).1.rooms rid = some room' ∧
        room'.status = Status.waiting ∧
        (∀ q ∈ room'.players,
          q.2.finished = false ∧ q.2.finish_time = none) ∧
        room'.players.map
          (fun q => (q.1, q.2.last_position, q.2.last_update_time)) =
          pl1.map
            (fun q => (q.1, q.2.last_position, q.2.last_update_time)) ∧
        (∀ q ∈ room'.players,
          Ev.raceResults q.1
            (sortByTime (pl1.map
              (fun q => (q.2.name, q.2.finish_time.getD 0)))) ∈
            (hPlayerFinish st sid ft now).2) ∧
        List.Pairwise (fun a b => a.2 ≤ b.2)
          (sortByTime (pl1.map
            (fun q => (q.2.name, q.2.finish_time.getD 0)))) ∧
        List.Perm
          (sortByTime (pl1.map
            (fun q => (q.2.name, q.2.finish_time.getD 0))))
          (pl1.map (fun q => (q.2.name, q.2.finish_time.getD 0)))) ∧
    sortByTime [("a", 452 / 10), ("b", 401 / 10)] =
      [("b", 401 / 10), ("a", 452 / 10)] := by
  constructor
  · intro st sid p rid room m ft now pl1 hp hrid hroom hrac hm hnodup
      hothers hpl1
    have hall : pl1.all (fun q => q.2.finished) = true := by
      rw [hpl1, List.all_eq_true]
      intro qq hqq
      rcases mem_aset_of_nodup hnodup hqq with rfl | ⟨hq', hne⟩
      · rfl
      · simpa using hothers qq hq' hne
    rw [hpl1] at hall
    simp only [hPlayerFinish, hp, hrid, hroom, if_pos hrac, hm, hall,
      if_true]
    refine ⟨_, alookup_aset_self _ _ _, rfl, ?_, ?_, ?_, ?_, ?_⟩
    · intro q hq
      rcases List.mem_map.mp hq with ⟨q0, hq0, rfl⟩
      exact ⟨rfl, rfl⟩
    · rw [hpl1, List.map_map]
      rfl
    · intro q hq
      rcases List.mem_map.mp hq with ⟨q0, hq0, rfl⟩
      refine List.mem_append.mpr (Or.inr ?_)
      rw [hpl1]
      exact List.mem_map.mpr ⟨q0, hq0, rfl⟩
    · rw [hpl1]
      exact sortByTime_pairwise _
    · rw [hpl1]
      exact sortByTime_perm _
  · have hcmp : ¬ ((452 : ℚ) / 10 ≤ 401 / 10) := by norm_num
    simp [sortByTime, insertByTime, hcmp]

/-- C7 amended witness: at the concrete state in which B already finished
with 50 and A reports 50, the room resets to waiting with cleared finish
fields, retained validator state, and sorted broadcast results. -/
theorem C7_results_and_reset_witness :
    ∃ room' : Room,
      alookup (hPlayerFinish c7St "A" (Val.num 50) 100).1.rooms "r" =
        some room' ∧
      room'.status = Status.waiting ∧
      (∀ q ∈ room'.players,
        q.2.finished = false ∧ q.2.finish_time = none) ∧
      room'.players.map
        (fun q => (q.1, q.2.last_position, q.2.last_update_time)) =
        (aset c7Room.players "A"
          { c7A with
            finished := true,
            finish_time := some
              (validateFinishTime c7Room.race_start_time 100
                (Val.num 50)) }).map
          (fun q => (q.1, q.2.last_position, q.2.last_update_time)) ∧
      (∀ q ∈ room'.players,
        Ev.raceResults q.1
          (sortByTime ((aset c7Room.players "A"
            { c7A with
              finished := true,
              finish_time := some
                (validateFinishTime c7Room.race_start_time 100
                  (Val.num 50)) }).map
            (fun q => (q.2.name, q.2.finish_time.getD 0)))) ∈
          (hPlayerFinish c7St "A" (Val.num 50) 100).2) ∧
      List.Pairwise (fun a b => a.2 ≤ b.2)
        (sortByTime ((aset c7Room.players "A"
          { c7A with
            finished := true,
            finish_time := some
              (validateFinishTime c7Room.race_start_time 100
                (Val.num 50)) }).map
          (fun q => (q.2.name, q.2.finish_time.getD 0)))) ∧
      List.Perm
        (sortByTime ((aset c7Room.players "A"
          { c7A with
            finished := true,
            finish_time := some
              (validateFinishTime c7Room.race_start_time 100
                (Val.num 50)) }).map
          (fun q => (q.2.name, q.2.finish_time.getD 0))))
        ((aset c7Room.players "A"
          { c7A with
            finished := true,
            finish_time := some
              (validateFinishTime c7Room.race_start_time 100
                (Val.num 50)) }).map
          (fun q => (q.2.name, q.2.finish_time.getD 0))) := by
  exact C7_results_and_reset.1 c7St "A" ⟨"A", some "r"⟩ "r" c7Room c7A
    (Val.num 50) 100 _ (by decide) (by decide) (by decide) (by decide)
    (by decide) (by decide) (by decide) rfl

/-- Concrete state for C8: a racing room whose member B disconnected at
time 0 and sits in the archive with the 60 unit grace window, with the
member record still present; the cleanup cycle runs at time 100, well past
the window. -/
def c8A : Member := { name := "A", is_host := true }

def c8B : Member :=
  { name := "B", disconnected := true, disconnect_time := some 0 }

def c8E : DiscEntry :=
  { dsid := "B", ddata := c8B, disconnect_time := 0, timeout := 60 }

def c8Room : Room :=
  { rname := "R", host_sid := some "A",
    players := [("A", c8A), ("B", c8B)],
    status := Status.racing, created_at := 90, map := "map1",
    last_activity := some 90,
    disconnected_players := [("B", c8E)] }

def c8St : ServerState := ⟨[("r", c8Room)], [("A", ⟨"A", some "r"⟩)]⟩

/-- C8: the cleanup cycle processing an expired archive entry deletes the
entry and then reads it back (server.py line 745 runs after the del at
line 742), raising KeyError: the cycle aborts with the error flag set, the
member named by the entry is still in the membership, and no departure is
notified; the surrounding try and the while loop keep future cycles
running, and the next cycle, finding the archive empty, completes without
error. -/
theorem C8_reaper_keyerror :
    (sweepCycle c8St 100).2.2 = true ∧
    (sweepCycle c8St 100).2.1 = [] ∧
    (∃ room' : Room,
      alookup (sweepCycle c8St 100).1.rooms "r" = some room' ∧
      room'.disconnected_players = [] ∧
      amem room'.players "B" = true) ∧
    (sweepCycle (sweepCycle c8St 100).1 200).2.2 = false := by
  refine ⟨?_, ?_, ?_, ?_⟩
  · norm_num [sweepCycle, sweepRooms, sweepArchive, c8St, c8Room, c8A,
      c8B, c8E, alookup, aerase, amem, List.filter]
  · norm_num [sweepCycle, sweepRooms, sweepArchive, c8St, c8Room, c8A,
      c8B, c8E, alookup, aerase, amem, List.filter]
  · norm_num [sweepCycle, sweepRooms, sweepArchive, c8St, c8Room, c8A,
      c8B, c8E, alookup, aerase, amem, List.filter]
    decide
  · norm_num [sweepCycle, sweepRooms, sweepArchive, c8St, c8Room, c8A,
      c8B, c8E, alookup, aerase, amem, List.filter]

/-- Concrete state for C9: during the countdown waits of start_race both
members of the racing room disconnected; racing status keeps them in the
membership flagged disconnected, but their global participant records are
deleted, including the requester H. -/
def c9H : Member :=
  { name := "H", is_host := true, disconnected := true,
    disconnect_time := some 50 }

def c9G : Member :=
  { name := "G", disconnected := true, disconnect_time := some 51 }

def c9Room : Room :=
  { rname := "R", host_sid := some "H",
    players := [("H", c9H), ("G", c9G)],
    status := Status.racing, created_at := 0, map := "map1" }

def c9St : ServerState := ⟨[("r", c9Room)], []⟩

/-- C9: the countdown broadcast step re-reads the current members and
emits without error, but the race start step, after recording the start
timestamp, reads the requester in the global players dict while building
the broadcast payload (server.py line 458) and raises KeyError when the
requester disconnected during the waits: the crash flag is set, no
race_start is emitted, and the partially applied mutation (the recorded
start timestamp) persists. -/
theorem C9_countdown_continuation_crash :
    (hStartRaceCountdown c9St "r").2 =
      [Ev.raceCountdown "H" 3, Ev.raceCountdown "G" 3] ∧
    (hStartRaceGo c9St "r" "H" 100).2 = true ∧
    (hStartRaceGo c9St "r" "H" 100).1.2 = [] ∧
    ∃ room' : Room,
      alookup (hStartRaceGo c9St "r" "H" 100).1.1.rooms "r" =
        some room' ∧
      room'.race_start_time = some 100 ∧
      room'.players.length = 2 := by decide

/-- C10 counterexample: two join_race invocations whose generated ids
collide put both callers in the same room, so membership after the second
synchronous join step is not just the second caller. -/
theorem C10_join_race_collision_counterexample :
    ∃ q ∈ (runOps initState
      [Op.joinRace "B" "race_a" (some "B") none none false 0,
       Op.joinRace "A" "race_a" (some "A") none none false 1]).rooms,
      (alookup q.2.players "A").isSome ∧
      (alookup q.2.players "B").isSome ∧
      q.2.players.length = 2 := by decide

/-- C10 amended: when the generated id is fresh, join_race creates a new
room whose membership after the synchronous join step is exactly the
caller, auto marked ready, and an is_host false caller yields a room with
host_sid none and no flagged host; a colliding generated id instead joins
the existing room. -/
theorem C10_fresh_join_race :
    ∀ (st : ServerState) (sid : Sid) (rid : RoomId) (pn : Option String)
      (car : Option CarData) (cn : Option String) (isHost : Bool)
      (now : ℚ),
      alookup st.rooms rid = none →
      ∃ (room' : Room) (mem : Member),
        alookup (hJoinRace st sid rid pn car cn isHost now).1.rooms rid =
          some room' ∧
        room'.players = [(sid, mem)] ∧
        mem.ready = true ∧
        mem.is_host = isHost ∧
        (isHost = false → room'.host_sid = none ∧
          ∀ q ∈ room'.players, q.2.is_host = false) := by
  intro st sid rid pn car cn isHost now hnone
  have hfresh : amem st.rooms rid = false := by
    simp [amem, hnone]
  cases isHost with
  | true =>
    simp only [hJoinRace, hfresh, Bool.false_eq_true, if_false, if_true,
      amodify_aset_self]
    refine ⟨_, joinRaceMember st sid pn car cn true,
      alookup_aset_self _ _ _, ?_, rfl, rfl, ?_⟩
    · show aset ([] : List (Sid × Member)) sid _ = _
      simp [aset]
    · intro hfalse
      simp at hfalse
  | false =>
    simp only [hJoinRace, hfresh, Bool.false_eq_true, if_false,
      amodify_aset_self]
    refine ⟨_, joinRaceMember st sid pn car cn false,
      alookup_aset_self _ _ _, ?_, rfl, rfl, ?_⟩
    · show aset ([] : List (Sid × Member)) sid _ = _
      simp [aset]
    · intro hfalse
      refine ⟨rfl, ?_⟩
      intro q hq
      show q.2.is_host = false
      have hq2 : q ∈ aset ([] : List (Sid × Member)) sid
          (joinRaceMember st sid pn car cn false) := hq
      simp [aset] at hq2
      rw [hq2]
      rfl

/-- C10 amended witness: a fresh id join with is_host false gives a one
member, auto ready, hostless room. -/
theorem C10_fresh_join_race_witness :
    ∃ (room' : Room) (mem : Member),
      alookup (hJoinRace initState "B" "race_x" (some "B") none none
        false 0).1.rooms "race_x" = some room' ∧
      room'.players = [("B", mem)] ∧
      mem.ready = true ∧
      mem.is_host = false ∧
      (false = false → room'.host_sid = none ∧
        ∀ q ∈ room'.players, q.2.is_host = false) :=
  C10_fresh_join_race initState "B" "race_x" (some "B") none none false 0
    (by decide)

end XtraCars
